import Mathlib

/-!
Shallow embedding of the docker-marina image cache (packages
`daemon/cache` and `daemon/images`): the four eviction-policy engines
(image-LRU, layer-LRU, archive-LRU, naive), the shared cache base, and
the two cache factories.  Go maps keyed by ID are modelled as
association lists; `container/list` recency lists are modelled as Lean
lists with the front at the head; the backing image/layer service is a
deterministic oracle of pure functions; looping eviction procedures are
fuel-indexed, with an explicit exit marker distinguishing a normal
return, an abort (`return` in the Go source), fuel exhaustion (the Go
loop would still be running) and a nil-dereference crash.
-/

namespace Marina

abbrev ImageID := String
abbrev DiffID := String

/-- ChainID is modelled as the list of diff IDs it is built from.
`layer.CreateChainID` is an injective content hash of that list, so the
list itself is a faithful model of the key. -/
abbrev ChainID := List DiffID

def CreateChainID (diffIDs : List DiffID) : ChainID := diffIDs

structure Image where
  id : ImageID
  diffIDs : List DiffID
  os : String
deriving DecidableEq

structure LayerHandle where
  chainID : ChainID
  diffID : DiffID
  gen : Nat
deriving DecidableEq

structure Metadata where
  chainID : ChainID
  diffID : DiffID
  diffSize : Int
deriving DecidableEq

/-- Outcome of `ImageService.ImageDelete`, classified the way the cache
classifies it: success, an error containing "conflict", an error
containing "no such image", or any other error. -/
inductive DelRes
  | ok
  | conflictErr
  | noSuchImage
  | otherErr
deriving DecidableEq

/-- Outcome of `ImageService.ReleaseReadOnlyLayer`: success with the
metadata of the layers whose refcount reached zero, an error containing
"layer not retained", or any other error. -/
inductive RelRes
  | ok (released : List Metadata)
  | notRetained
  | otherErr
deriving DecidableEq

/-- The backing image/layer service, an external collaborator of the
cache (spec section 6), modelled as a deterministic oracle. -/
structure Svc where
  imageDelete : ImageID → DelRes
  getImage : String → Option Image
  getROLayer : ChainID → Option LayerHandle
  diffSize : LayerHandle → Option Int
  layerSize : LayerHandle → Option Int
  releaseRO : LayerHandle → RelRes
  statArchive : DiffID → Option (Option Int)

/-! Association-list helpers used to model Go maps whose values are
`container/list` elements. -/

def lookupA {κ ν : Type} [DecidableEq κ] (l : List (κ × ν)) (k : κ) : Option ν :=
  (l.find? (fun p => decide (p.1 = k))).map Prod.snd

def eraseK {κ ν : Type} [DecidableEq κ] (l : List (κ × ν)) (k : κ) : List (κ × ν) :=
  l.eraseP (fun p => decide (p.1 = k))

def insertA {κ ν : Type} [DecidableEq κ] (l : List (κ × ν)) (k : κ) (v : ν) : List (κ × ν) :=
  (k, v) :: eraseK l k

def updateValK {κ ν : Type} [DecidableEq κ] (l : List (κ × ν)) (k : κ) (v : ν) : List (κ × ν) :=
  l.map (fun p => if p.1 = k then (k, v) else p)

/-- Model of `list.MoveToFront` applied to the element the map stores
for key `k`; a no-op when no element with that key is in the list
(matching `MoveToFront` on an element removed from the list). -/
def moveToFrontK {κ ν : Type} [DecidableEq κ] (l : List (κ × ν)) (k : κ) : List (κ × ν) :=
  match l.find? (fun p => decide (p.1 = k)) with
  | some e => e :: eraseK l k
  | none => l

def keysOf {κ ν : Type} (l : List (κ × ν)) : List κ := l.map Prod.fst

/-- Exit markers for fuel-indexed eviction loops. `fuelOut` means the
Go loop would still be running (for the looping-forever behaviours it
means the loop never returns); `crashed` marks the nil back-element
dereference reachable only from inconsistent states. -/
inductive EvictExit
  | normal
  | aborted
  | fuelOut
  | crashed
deriving DecidableEq

/-! Cache base (driver.go): size probes shared by the engines. -/

/-- `cacheBase.getImageSize`: fetch the top layer of the image through
the service and ask for its cumulative size; the acquired handle is
released again (a no-op on the cache state). -/
def getImageSize (svc : Svc) (img : Image) : Option Int :=
  match svc.getROLayer (CreateChainID img.diffIDs) with
  | none => none
  | some topLayer => svc.layerSize topLayer

/-- `cacheBase.checkImageSize`: `true` when the probe succeeds and the
size does not exceed the capacity (the Go function returns no error). -/
def checkImageSize (svc : Svc) (capacity : Int) (img : Image) : Bool :=
  match getImageSize svc img with
  | none => false
  | some size => decide (size ≤ capacity)

/-! Image-LRU engine (imageLRUCache). The Go map `images` maps an image
ID to the list element whose value is the image; both sides are
modelled as `(ImageID × Image)` lists, the eviction list front first. -/

structure ImageLRU where
  images : List (ImageID × Image)
  evictList : List (ImageID × Image)
  level : Int
  capacity : Int
deriving DecidableEq

/-- Body of `imageLRUCache.evict`'s `for c.capacity < c.level` loop. On
"conflict" and on "no such image" the source merely `continue`s; on any
other delete error it returns; on success it deletes the back candidate
from map and list and lowers the level. -/
def imageEvictLoop (svc : Svc) : Nat → ImageLRU → ImageLRU × EvictExit
  | 0, s => (s, .fuelOut)
  | fuel + 1, s =>
    if s.capacity < s.level then
      match s.evictList.getLast? with
      | none => (s, .crashed)
      | some (_, img) =>
        match getImageSize svc img with
        | none => imageEvictLoop svc fuel s
        | some size =>
          match svc.imageDelete img.id with
          | .conflictErr => imageEvictLoop svc fuel s
          | .noSuchImage => imageEvictLoop svc fuel s
          | .otherErr => (s, .aborted)
          | .ok =>
            imageEvictLoop svc fuel
              { s with
                images := eraseK s.images img.id
                evictList := s.evictList.dropLast
                level := s.level - size }
    else (s, .normal)

/-- `imageLRUCache.evict`: empty-list guard, then the loop. -/
def imageEvict (svc : Svc) (fuel : Nat) (s : ImageLRU) : ImageLRU × EvictExit :=
  if s.evictList.isEmpty then (s, .normal) else imageEvictLoop svc fuel s

/-- `imageLRUCache.PutImage`. `none` models the nil-image guard. -/
def imagePutImage (svc : Svc) (fuel : Nat) (img? : Option Image) (s : ImageLRU) : ImageLRU :=
  match img? with
  | none => s
  | some img =>
    if checkImageSize svc s.capacity img then
      match lookupA s.images img.id with
      | some _ => { s with evictList := moveToFrontK s.evictList img.id }
      | none =>
        match getImageSize svc img with
        | none => s
        | some newSize =>
          (imageEvict svc fuel
            { s with
              images := insertA s.images img.id img
              evictList := (img.id, img) :: s.evictList
              level := s.level + newSize }).1
    else s

/-- `imageLRUCache.UpdateImage`: resolve through the service, move to
front when resident, otherwise log and do nothing. -/
def imageUpdateImage (svc : Svc) (refOrID : String) (s : ImageLRU) : ImageLRU :=
  match svc.getImage refOrID with
  | none => s
  | some img =>
    match lookupA s.images img.id with
    | some _ => { s with evictList := moveToFrontK s.evictList img.id }
    | none => s

/-- `imageLRUCache.RemoveImage`: look up, reprobe the size, remove from
map and list, lower the level; a probe error leaves the cache as is. -/
def imageRemoveImage (svc : Svc) (imgID : ImageID) (s : ImageLRU) : ImageLRU :=
  match lookupA s.images imgID with
  | none => s
  | some img =>
    match getImageSize svc img with
    | none => s
    | some size =>
      { s with
        images := eraseK s.images imgID
        evictList := eraseK s.evictList imgID
        level := s.level - size }

/-! Naive engine (naiveCache): a bare `ImageID → size` map, no recency
order. -/

structure NaiveC where
  images : List (ImageID × Int)
  level : Int
  capacity : Int
deriving DecidableEq

/-- `naiveCache.evict`: when over capacity, one pass over the map that
issues `ImageDelete(imgID, force, prune)` for every entry except
`current` (delete errors are logged and ignored) and drains the map. -/
def naiveEvict (current : ImageID) (s : NaiveC) : NaiveC :=
  if s.capacity < s.level then
    s.images.foldl
      (fun acc p =>
        if p.1 = current then acc
        else { acc with images := eraseK acc.images p.1, level := acc.level - p.2 })
      s
  else s

/-- `naiveCache.PutImage`. -/
def naivePutImage (svc : Svc) (img? : Option Image) (s : NaiveC) : NaiveC :=
  match img? with
  | none => s
  | some img =>
    if checkImageSize svc s.capacity img then
      match lookupA s.images img.id with
      | some _ => s
      | none =>
        match getImageSize svc img with
        | none => s
        | some size =>
          naiveEvict img.id
            { s with images := insertA s.images img.id size, level := s.level + size }
    else s

/-- `naiveCache.UpdateImage` only triggers eviction with empty current. -/
def naiveUpdateImage (s : NaiveC) : NaiveC :=
  naiveEvict "" s

/-- `naiveCache.RemoveImage`. -/
def naiveRemoveImage (imgID : ImageID) (s : NaiveC) : NaiveC :=
  match lookupA s.images imgID with
  | none => s
  | some size =>
    { s with images := eraseK s.images imgID, level := s.level - size }

/-! Layer-LRU engine (layerLRUCache): layers keyed by chain ID, an
images table keyed by image ID, and the shared eviction list. The list
entries carry the chain key and the `cacheLayer` record; record
mutations through the shared pointer are applied to both the map entry
and the list entry of the same key. -/

structure CacheLayer where
  layer : LayerHandle
  size : Int
  images : List ImageID
  os : String
deriving DecidableEq

structure LayerLRU where
  images : List (ImageID × Image)
  layers : List (ChainID × CacheLayer)
  evictList : List (ChainID × CacheLayer)
  level : Int
  capacity : Int
deriving DecidableEq

/-- The chain-ID vectors that `PutImage`/`UpdateImage` build from
`img.RootFS.DiffIDs`: cumulative chains, prepended, so most specific
first. -/
def chainIDsTopDown (diffIDs : List DiffID) : List ChainID :=
  ((List.range diffIDs.length).map (fun i => CreateChainID (diffIDs.take (i + 1)))).reverse

/-- The chain order `RemoveImage` walks: cumulative chains in diff-ID
order, base first. -/
def chainIDsBottomUp (diffIDs : List DiffID) : List ChainID :=
  (List.range diffIDs.length).map (fun i => CreateChainID (diffIDs.take (i + 1)))

/-- Result of the `for _, imgID := range cl.images` deletion loop in
`layerLRUCache.evict`, together with the image IDs for which an
`ImageDelete` call was actually issued. `conflict` covers both the
`imgID == current.String()` protection and a delete error containing
"conflict" (both set the flag and break); `fatal` is any other delete
error (the source returns). -/
inductive ScanRes
  | ok
  | conflict
  | fatal
deriving DecidableEq

def scanImages (svc : Svc) (current : ImageID) : List ImageID → ScanRes × List ImageID
  | [] => (.ok, [])
  | imgID :: rest =>
    if imgID = current then (.conflict, [])
    else
      match svc.imageDelete imgID with
      | .ok =>
        let out := scanImages svc current rest
        (out.1, imgID :: out.2)
      | .noSuchImage =>
        let out := scanImages svc current rest
        (out.1, imgID :: out.2)
      | .conflictErr => (.conflict, [imgID])
      | .otherErr => (.fatal, [imgID])

/-- Outcome of the release/re-acquire loop in `layerLRUCache.evict`. -/
inductive RelLoopOut
  | okOut (handle : LayerHandle) (released : List Metadata)
  | abortPass
  | stuck
deriving DecidableEq

/-- Body iterations of the `for released, err = ReleaseReadOnlyLayer(...);
err != nil;` loop once the initial release failed with `e`: on "layer
not retained" a read-only handle is re-acquired (failure aborts the
whole eviction pass; success clears `err` so the loop exits with the
nil `released` of the failed call); any other error is logged and the
loop spins with `err` unchanged. -/
def releaseErrSpin (svc : Svc) (chainID : ChainID) (e : RelRes) : Nat → RelLoopOut
  | 0 => .stuck
  | fuel + 1 =>
    match e with
    | .notRetained =>
      match svc.getROLayer chainID with
      | none => .abortPass
      | some h => .okOut h []
    | _ => releaseErrSpin svc chainID e fuel

/-- The whole release loop: initial release, then the error-spin. -/
def releaseLoop (svc : Svc) (chainID : ChainID) (h : LayerHandle) (fuel : Nat) : RelLoopOut :=
  match svc.releaseRO h with
  | .ok released => .okOut h released
  | .notRetained => releaseErrSpin svc chainID .notRetained fuel
  | .otherErr => releaseErrSpin svc chainID .otherErr fuel

/-- Removal of the released layers inside `evict` (and `removeLayer`):
for each returned metadata entry present in the index, lower the level
and delete it from map and list (absent entries are logged and
skipped). -/
def removeReleased (released : List Metadata) (s : LayerLRU) : LayerLRU :=
  released.foldl
    (fun acc l =>
      match lookupA acc.layers l.chainID with
      | none => acc
      | some _ =>
        { acc with
          level := acc.level - l.diffSize
          layers := eraseK acc.layers l.chainID
          evictList := eraseK acc.evictList l.chainID })
    s

/-- Update of the back element's `cl.layer` pointer field after a
re-acquire, applied to the shared record. -/
def updateHandleK (s : LayerLRU) (k : ChainID) (h : LayerHandle) : LayerLRU :=
  let upd := fun (cl : CacheLayer) => { cl with layer := h }
  { s with
    layers := s.layers.map (fun p => if p.1 = k then (p.1, upd p.2) else p)
    evictList := s.evictList.map (fun p => if p.1 = k then (p.1, upd p.2) else p) }

/-- `list.MoveToFront` of the back element. -/
def moveBackToFront {κ ν : Type} (l : List (κ × ν)) : List (κ × ν) :=
  match l.getLast? with
  | none => l
  | some e => e :: l.dropLast

/-- Per-chain retry counter bump on the eviction pass's `checkboard`. -/
def bumpCb (cb : ChainID → Nat) (c : ChainID) : ChainID → Nat :=
  fun c2 => if c2 = c then cb c2 + 1 else cb c2

/-- The `for c.capacity < c.level` loop of `layerLRUCache.evict`. -/
def layerEvictLoop (svc : Svc) (current : ImageID) :
    Nat → (ChainID → Nat) → LayerLRU → LayerLRU × EvictExit
  | 0, _, s => (s, .fuelOut)
  | fuel + 1, cb, s =>
    if s.capacity < s.level then
      match s.evictList.getLast? with
      | none => (s, .crashed)
      | some (_, cl) =>
        let chainID := cl.layer.chainID
        match (scanImages svc current cl.images).1 with
        | .fatal => (s, .aborted)
        | .conflict =>
          let cb2 := bumpCb cb chainID
          if cb2 chainID > 3 then (s, .aborted)
          else layerEvictLoop svc current fuel cb2 s
        | .ok =>
          match releaseLoop svc chainID cl.layer (fuel + 1) with
          | .stuck => (s, .fuelOut)
          | .abortPass => (s, .aborted)
          | .okOut h released =>
            let s1 := updateHandleK s chainID h
            if released.isEmpty then
              let s2 := { s1 with evictList := moveBackToFront s1.evictList }
              let cb2 := bumpCb cb chainID
              if cb2 chainID > 3 then (s2, .aborted)
              else layerEvictLoop svc current fuel cb2 s2
            else
              layerEvictLoop svc current fuel cb (removeReleased released s1)
    else (s, .normal)

/-- `layerLRUCache.evict`: empty-list guard, fresh checkboard, loop. -/
def layerEvict (svc : Svc) (current : ImageID) (fuel : Nat) (s : LayerLRU) :
    LayerLRU × EvictExit :=
  if s.evictList.isEmpty then (s, .normal)
  else layerEvictLoop svc current fuel (fun _ => 0) s

/-- `layerLRUCache.putLayer`: refresh a resident chain (removing the
old node and subtracting its size first), acquire a fresh read-only
handle, store the rebuilt record at the front; the deferred
`evict(img.ID())` runs on every exit path. -/
def layerPutLayer (svc : Svc) (fuel : Nat) (chainID : ChainID) (img : Image)
    (s : LayerLRU) : LayerLRU :=
  let s1 :=
    match lookupA s.layers chainID with
    | some oldLayer =>
      { s with evictList := eraseK s.evictList chainID, level := s.level - oldLayer.size }
    | none => s
  let s2 :=
    match svc.getROLayer chainID with
    | none => s1
    | some l =>
      match svc.diffSize l with
      | none => s1
      | some size =>
        let cl : CacheLayer := { layer := l, size := size, images := [img.id], os := img.os }
        { s1 with
          layers := insertA s1.layers chainID cl
          evictList := (chainID, cl) :: s1.evictList
          level := s1.level + size }
  (layerEvict svc img.id fuel s2).1

/-- `layerLRUCache.PutImage`. -/
def layerPutImage (svc : Svc) (fuel : Nat) (img? : Option Image) (s : LayerLRU) : LayerLRU :=
  match img? with
  | none => s
  | some img =>
    if checkImageSize svc s.capacity img then
      let s1 := { s with images := insertA s.images img.id img }
      (chainIDsTopDown img.diffIDs).foldl
        (fun acc chainID => layerPutLayer svc fuel chainID img acc) s1
    else s

/-- `layerLRUCache.updateLayer`: append the image ID to the resident
record's images (through the shared pointer) and move the node to the
front; the deferred `evict("")` runs on every exit path. -/
def layerUpdateLayer (svc : Svc) (fuel : Nat) (chainID : ChainID) (img : Image)
    (s : LayerLRU) : LayerLRU :=
  let s1 :=
    match lookupA s.layers chainID with
    | none => s
    | some cl =>
      let cl2 := { cl with images := cl.images ++ [img.id] }
      { s with
        layers := insertA s.layers chainID cl2
        evictList := moveToFrontK (updateValK s.evictList chainID cl2) chainID }
  (layerEvict svc "" fuel s1).1

/-- `layerLRUCache.UpdateImage`. -/
def layerUpdateImage (svc : Svc) (fuel : Nat) (refOrID : String) (s : LayerLRU) : LayerLRU :=
  match svc.getImage refOrID with
  | none => s
  | some img =>
    (chainIDsTopDown img.diffIDs).foldl
      (fun acc chainID => layerUpdateLayer svc fuel chainID img acc) s

/-- `layerLRUCache.removeLayer`: release through the service; on any
release error log and return; otherwise drop exactly the released
layers from the index (archives are best-effort deleted on disk, no
cache state). -/
def layerRemoveLayer (svc : Svc) (chainID : ChainID) (s : LayerLRU) : LayerLRU :=
  match lookupA s.layers chainID with
  | none => s
  | some cl =>
    match svc.releaseRO cl.layer with
    | .ok released => removeReleased released s
    | .notRetained => s
    | .otherErr => s

/-- `layerLRUCache.RemoveImage`: drop the image from the images table
and walk its chains bottom-up through `removeLayer`. -/
def layerRemoveImage (svc : Svc) (imgID : ImageID) (s : LayerLRU) : LayerLRU :=
  match lookupA s.images imgID with
  | none => s
  | some img =>
    let s1 := { s with images := eraseK s.images imgID }
    (chainIDsBottomUp img.diffIDs).foldl
      (fun acc chainID => layerRemoveLayer svc chainID acc) s1

/-! Archive-LRU engine (archiveLRUCache in util.go): layer-LRU extended
with a `compactSize` recording the size of the on-disk companion
archive. -/

structure ArchiveLayer where
  layer : LayerHandle
  size : Int
  images : List ImageID
  os : String
  compactSize : Int
deriving DecidableEq

structure ArchiveLRU where
  images : List (ImageID × Image)
  layers : List (ChainID × ArchiveLayer)
  evictList : List (ChainID × ArchiveLayer)
  level : Int
  capacity : Int
deriving DecidableEq

/-- The delete loop of `archiveLRUCache.evict`: like the layer-LRU one
but with no `current` protection. -/
def scanImagesArchive (svc : Svc) : List ImageID → ScanRes × List ImageID
  | [] => (.ok, [])
  | imgID :: rest =>
    match svc.imageDelete imgID with
    | .ok =>
      let out := scanImagesArchive svc rest
      (out.1, imgID :: out.2)
    | .noSuchImage =>
      let out := scanImagesArchive svc rest
      (out.1, imgID :: out.2)
    | .conflictErr => (.conflict, [imgID])
    | .otherErr => (.fatal, [imgID])

/-- Released-layer removal for the archive engine (in `removeLayer` the
on-disk archive is also best-effort deleted; no cache state). -/
def removeReleasedA (released : List Metadata) (s : ArchiveLRU) : ArchiveLRU :=
  released.foldl
    (fun acc l =>
      match lookupA acc.layers l.chainID with
      | none => acc
      | some _ =>
        { acc with
          level := acc.level - l.diffSize
          layers := eraseK acc.layers l.chainID
          evictList := eraseK acc.evictList l.chainID })
    s

/-- The `for c.capacity < c.level` loop of `archiveLRUCache.evict`: no
`current` protection, and a release error aborts the pass directly. -/
def archiveEvictLoop (svc : Svc) :
    Nat → (ChainID → Nat) → ArchiveLRU → ArchiveLRU × EvictExit
  | 0, _, s => (s, .fuelOut)
  | fuel + 1, cb, s =>
    if s.capacity < s.level then
      match s.evictList.getLast? with
      | none => (s, .crashed)
      | some (_, al) =>
        let chainID := al.layer.chainID
        match (scanImagesArchive svc al.images).1 with
        | .fatal => (s, .aborted)
        | .conflict =>
          let cb2 := bumpCb cb chainID
          if cb2 chainID > 3 then (s, .aborted)
          else archiveEvictLoop svc fuel cb2 s
        | .ok =>
          match svc.releaseRO al.layer with
          | .notRetained => (s, .aborted)
          | .otherErr => (s, .aborted)
          | .ok released =>
            if released.isEmpty then
              let s2 := { s with evictList := moveBackToFront s.evictList }
              let cb2 := bumpCb cb chainID
              if cb2 chainID > 3 then (s2, .aborted)
              else archiveEvictLoop svc fuel cb2 s2
            else
              archiveEvictLoop svc fuel cb (removeReleasedA released s)
    else (s, .normal)

/-- `archiveLRUCache.evict`. -/
def archiveEvict (svc : Svc) (fuel : Nat) (s : ArchiveLRU) : ArchiveLRU × EvictExit :=
  if s.evictList.isEmpty then (s, .normal)
  else archiveEvictLoop svc fuel (fun _ => 0) s

/-- `archiveLRUCache.putLayer`.  `getLayerArchiveInfo` stats the archive
path: present gives its size, absent or a stat error leaves
`compactSize` at zero; when `compactSize > size` the archive is deleted
(`deleteArchive`).  The returned list records the diff IDs whose
archives the call deleted.  The deferred `evict()` runs on every exit
path. -/
def archivePutLayer (svc : Svc) (fuel : Nat) (chainID : ChainID) (img : Image)
    (s : ArchiveLRU) : ArchiveLRU × List DiffID :=
  let s1 :=
    match lookupA s.layers chainID with
    | some oldLayer =>
      { s with evictList := eraseK s.evictList chainID, level := s.level - oldLayer.size }
    | none => s
  let out :=
    match svc.getROLayer chainID with
    | none => (s1, [])
    | some l =>
      match svc.diffSize l with
      | none => (s1, [])
      | some size =>
        let compactSize :=
          match svc.statArchive l.diffID with
          | some (some archiveSize) => archiveSize
          | some none => 0
          | none => 0
        let al : ArchiveLayer :=
          { layer := l, size := size, images := [img.id], os := img.os
            compactSize := compactSize }
        let deleted := if compactSize > size then [l.diffID] else ([] : List DiffID)
        ({ s1 with
            layers := insertA s1.layers chainID al
            evictList := (chainID, al) :: s1.evictList
            level := s1.level + size },
          deleted)
  ((archiveEvict svc fuel out.1).1, out.2)

/-- `archiveLRUCache.PutImage` (deleted-archive traces collected). -/
def archivePutImage (svc : Svc) (fuel : Nat) (img? : Option Image) (s : ArchiveLRU) :
    ArchiveLRU :=
  match img? with
  | none => s
  | some img =>
    if checkImageSize svc s.capacity img then
      let s1 := { s with images := insertA s.images img.id img }
      (chainIDsTopDown img.diffIDs).foldl
        (fun acc chainID => (archivePutLayer svc fuel chainID img acc).1) s1
    else s

/-- `archiveLRUCache.updateLayer`. -/
def archiveUpdateLayer (svc : Svc) (fuel : Nat) (chainID : ChainID) (img : Image)
    (s : ArchiveLRU) : ArchiveLRU :=
  let s1 :=
    match lookupA s.layers chainID with
    | none => s
    | some al =>
      let al2 := { al with images := al.images ++ [img.id] }
      { s with
        layers := insertA s.layers chainID al2
        evictList := moveToFrontK (updateValK s.evictList chainID al2) chainID }
  (archiveEvict svc fuel s1).1

/-- `archiveLRUCache.UpdateImage`. -/
def archiveUpdateImage (svc : Svc) (fuel : Nat) (refOrID : String) (s : ArchiveLRU) :
    ArchiveLRU :=
  match svc.getImage refOrID with
  | none => s
  | some img =>
    (chainIDsTopDown img.diffIDs).foldl
      (fun acc chainID => archiveUpdateLayer svc fuel chainID img acc) s

/-- `archiveLRUCache.removeLayer`. -/
def archiveRemoveLayer (svc : Svc) (chainID : ChainID) (s : ArchiveLRU) : ArchiveLRU :=
  match lookupA s.layers chainID with
  | none => s
  | some al =>
    match svc.releaseRO al.layer with
    | .ok released => removeReleasedA released s
    | .notRetained => s
    | .otherErr => s

/-- `archiveLRUCache.RemoveImage`. -/
def archiveRemoveImage (svc : Svc) (imgID : ImageID) (s : ArchiveLRU) : ArchiveLRU :=
  match lookupA s.images imgID with
  | none => s
  | some img =>
    let s1 := { s with images := eraseK s.images imgID }
    (chainIDsBottomUp img.diffIDs).foldl
      (fun acc chainID => archiveRemoveLayer svc chainID acc) s1

/-! Cache factories: `cache.NewImageCache` (driver.go) and the older
`images.newCacheDriver` (cache_lru.go).  `units.RAMInBytes` is an
external library; its outcome on a given string is passed in as a
`parse` oracle. -/

inductive EngineTag
  | imageLRU
  | layerLRU
  | archiveLRU
  | naive
deriving DecidableEq

inductive CacheErr
  | parseErr
  | archiveRequired
deriving DecidableEq

structure CacheConfig where
  cachePolicy : String
  cacheCapacity : String
  cacheArchive : Bool
deriving DecidableEq

/-- Model of `strings.ToLower` on the ASCII policy names: lower-case
every character. -/
def toLowerAscii (s : String) : String :=
  String.mk (s.data.map Char.toLower)

/-- `cache.NewImageCache`: a capacity parse error is returned (the
construction fails); the policy switch matches the lower-cased policy
name against `image-lru`, `layer-lru` and `archive-lru` (the latter
requiring `--cache-archive`), and everything else falls through to
image-LRU. -/
def NewImageCache (parse : String → Option Int) (cfg : CacheConfig) :
    Except CacheErr (EngineTag × Int) :=
  match parse cfg.cacheCapacity with
  | none => .error .parseErr
  | some capacity =>
    match toLowerAscii cfg.cachePolicy with
    | "image-lru" => .ok (.imageLRU, capacity)
    | "layer-lru" => .ok (.layerLRU, capacity)
    | "archive-lru" =>
      if cfg.cacheArchive then .ok (.archiveLRU, capacity)
      else .error .archiveRequired
    | _ => .ok (.imageLRU, capacity)

inductive DriverTag
  | lruLayerDriver
deriving DecidableEq

def DefaultCacheCapacity : String := "1GB"

/-- `images.newCacheDriver`: a capacity parse error is logged and the
fixed default capacity string is parsed instead, its error ignored
(`units.RAMInBytes` returns -1 alongside an error, so an unparseable
default would leave -1); the driver switch always builds the LRU layer
cache driver. -/
def newCacheDriver (parse : String → Option Int) (driver capacity : String) :
    DriverTag × Int :=
  let cap :=
    match parse capacity with
    | some c => c
    | none => (parse DefaultCacheCapacity).getD (-1)
  match driver with
  | "layer-lru" => (.lruLayerDriver, cap)
  | _ => (.lruLayerDriver, cap)

/-! Invariants relating the index map and the eviction list (spec
sections 3 and 8): the map key set and the list node set agree, each
node mapped by exactly one key.  For the image engine the list entries
additionally carry the image whose ID is their key (in the source the
map value IS the list element, so this holds by construction). -/

def ImageInv (s : ImageLRU) : Prop :=
  (keysOf s.images).Perm (keysOf s.evictList) ∧ (keysOf s.images).Nodup ∧
    ∀ p ∈ s.evictList, p.1 = p.2.id

def LayerInv (s : LayerLRU) : Prop :=
  (keysOf s.layers).Perm (keysOf s.evictList) ∧ (keysOf s.layers).Nodup

def ArchiveInv (s : ArchiveLRU) : Prop :=
  (keysOf s.layers).Perm (keysOf s.evictList) ∧ (keysOf s.layers).Nodup

/-- Sum of the probed sizes of the listed images: the image-LRU level
accounting invariant `L = Σ size(img)`. -/
def levelSumI (svc : Svc) (l : List (ImageID × Image)) : Int :=
  (l.map (fun p => (getImageSize svc p.2).getD 0)).sum

/-- The two service-health assumptions for the layer engines: every
read-only layer acquisition and every diff-size probe succeeds. -/
def SvcLayersOk (svc : Svc) : Prop :=
  (∀ c, (svc.getROLayer c).isSome) ∧ ∀ h, (svc.diffSize h).isSome

/-! Concrete instances used by counterexamples and witnesses. -/

def exH1 : LayerHandle := ⟨["d1"], "d1", 0⟩

def exImg1 : Image := ⟨"I", ["d1"], "linux"⟩

/-- Service whose `ImageDelete` always fails with "no such image". -/
def exSvcNoSuch : Svc where
  imageDelete := fun _ => .noSuchImage
  getImage := fun _ => none
  getROLayer := fun c => if c = ["d1"] then some exH1 else none
  diffSize := fun _ => none
  layerSize := fun h => if h = exH1 then some 10 else none
  releaseRO := fun _ => .otherErr
  statArchive := fun _ => none

/-- Image-LRU cache over capacity with one cached image of size 10. -/
def exImageLRU1 : ImageLRU := ⟨[("I", exImg1)], [("I", exImg1)], 10, 5⟩

def exHx : LayerHandle := ⟨["dx"], "dx", 0⟩

def exHc : LayerHandle := ⟨["dc"], "dc", 0⟩

def exClx : CacheLayer := ⟨exHx, 4, ["X"], "linux"⟩

def exClc : CacheLayer := ⟨exHc, 4, ["C"], "linux"⟩

/-- Service for which deleting image "C" reports a conflict and every
other delete succeeds. -/
def exSvcConflict : Svc where
  imageDelete := fun i => if i = "C" then .conflictErr else .ok
  getImage := fun _ => none
  getROLayer := fun _ => none
  diffSize := fun _ => none
  layerSize := fun _ => none
  releaseRO := fun _ => .ok []
  statArchive := fun _ => none

/-- Layer-LRU cache over capacity whose back candidate's image is "C". -/
def exLayerConflict : LayerLRU :=
  ⟨[], [(["dx"], exClx), (["dc"], exClc)], [(["dx"], exClx), (["dc"], exClc)], 13, 10⟩

def exHz : LayerHandle := ⟨["dz"], "dz", 0⟩

def exClz : CacheLayer := ⟨exHz, 4, [], "linux"⟩

/-- Service whose `ReleaseReadOnlyLayer` fails with an unclassified
error. -/
def exSvcRelErr : Svc where
  imageDelete := fun _ => .ok
  getImage := fun _ => none
  getROLayer := fun _ => none
  diffSize := fun _ => none
  layerSize := fun _ => none
  releaseRO := fun _ => .otherErr
  statArchive := fun _ => none

/-- Layer-LRU cache over capacity whose back candidate references no
image, so eviction proceeds straight to the release. -/
def exLayerRelErr : LayerLRU := ⟨[], [(["dz"], exClz)], [(["dz"], exClz)], 13, 10⟩

/-- Capacity-string parser oracle that rejects every string. -/
def exParseNone : String → Option Int := fun _ => none

/-- Capacity-string parser oracle: accepts "10g" and the default. -/
def exParse : String → Option Int :=
  fun str =>
    if str = "10g" then some 10737418240
    else if str = "1GB" then some 1073741824
    else none

def exCfgNaive : CacheConfig := ⟨"naive", "10g", false⟩

def exCfgBadCap : CacheConfig := ⟨"image-lru", "ten gigabytes", false⟩

def exH6 : LayerHandle := ⟨["d6"], "d6", 0⟩

def exImg6 : Image := ⟨"F", ["d6"], "linux"⟩

/-- Service for the archive admission scenario: layer diff size 10,
companion archive present on disk with size 100. -/
def exSvcArch : Svc where
  imageDelete := fun _ => .ok
  getImage := fun _ => none
  getROLayer := fun c => if c = ["d6"] then some exH6 else none
  diffSize := fun h => if h = exH6 then some 10 else none
  layerSize := fun h => if h = exH6 then some 10 else none
  releaseRO := fun _ => .ok []
  statArchive := fun d => if d = "d6" then some (some 100) else some none

def exArchive0 : ArchiveLRU := ⟨[], [], [], 0, 1000⟩

def exH71 : LayerHandle := ⟨["e1"], "e1", 0⟩

def exH72 : LayerHandle := ⟨["e1", "e2"], "e2", 0⟩

def exCl71 : CacheLayer := ⟨exH71, 2, ["Q"], "linux"⟩

def exImg7 : Image := ⟨"P", ["e1", "e2"], "linux"⟩

/-- Service whose `GetReadOnlyLayer` succeeds for the two-layer chain
but fails for the base chain. -/
def exSvcStale : Svc where
  imageDelete := fun _ => .ok
  getImage := fun _ => none
  getROLayer := fun c => if c = ["e1", "e2"] then some exH72 else none
  diffSize := fun h => if h = exH72 then some 3 else none
  layerSize := fun h => if h = exH72 then some 3 else none
  releaseRO := fun _ => .ok []
  statArchive := fun _ => none

/-- Layer-LRU cache with the base chain resident. -/
def exLayer7 : LayerLRU := ⟨[], [(["e1"], exCl71)], [(["e1"], exCl71)], 2, 100⟩

def exH8 : LayerHandle := ⟨["d8"], "d8", 0⟩

def exCl8 : CacheLayer := ⟨exH8, 4, ["A"], "linux"⟩

def exImg8 : Image := ⟨"A", ["d8"], "linux"⟩

/-- Service whose release succeeds but reports no layer freed. -/
def exSvcRel8 : Svc where
  imageDelete := fun _ => .ok
  getImage := fun _ => none
  getROLayer := fun _ => none
  diffSize := fun _ => none
  layerSize := fun _ => none
  releaseRO := fun _ => .ok []
  statArchive := fun _ => none

/-- Layer-LRU cache with image "A" resident on chain ["d8"]. -/
def exLayer8 : LayerLRU := ⟨[("A", exImg8)], [(["d8"], exCl8)], [(["d8"], exCl8)], 4, 100⟩

/-- Service resolving reference "R8" to image "A", with all deletes
succeeding. -/
def exSvcUpd : Svc where
  imageDelete := fun _ => .ok
  getImage := fun str => if str = "R8" then some exImg8 else none
  getROLayer := fun _ => none
  diffSize := fun _ => none
  layerSize := fun _ => none
  releaseRO := fun _ => .ok []
  statArchive := fun _ => none

def exHA9 : LayerHandle := ⟨["dA"], "dA", 0⟩

def exImg9 : Image := ⟨"A", ["dA"], "linux"⟩

/-- Service for the double-PutImage scenario: deleting "C" conflicts,
the layer of image "A" probes at size 5, releases report nothing
freed. -/
def exSvc9 : Svc where
  imageDelete := fun i => if i = "C" then .conflictErr else .ok
  getImage := fun _ => none
  getROLayer := fun c => if c = ["dA"] then some exHA9 else none
  diffSize := fun h => if h = exHA9 then some 5 else none
  layerSize := fun h => if h = exHA9 then some 5 else none
  releaseRO := fun _ => .ok []
  statArchive := fun _ => none

/-- Layer-LRU cache with two resident foreign layers, the back one
releasable-but-empty, the front one deletion-conflicted. -/
def exLayer9 : LayerLRU :=
  ⟨[], [(["dx"], exClx), (["dc"], exClc)], [(["dc"], exClc), (["dx"], exClx)], 8, 10⟩

/-- Service whose probes all succeed and whose deletes all succeed:
used by witnesses of the general theorems. -/
def exSvcClean : Svc where
  imageDelete := fun _ => .ok
  getImage := fun str => if str = "R" then some exImg8 else none
  getROLayer := fun c => some ⟨c, c.getLastD "", 0⟩
  diffSize := fun _ => some 1
  layerSize := fun _ => some 1
  releaseRO := fun _ => .ok []
  statArchive := fun _ => some none

/-- Empty caches used by witnesses. -/
def exImageLRU0 : ImageLRU := ⟨[], [], 0, 10⟩

def exLayer0 : LayerLRU := ⟨[], [], [], 0, 10⟩

def exNaive0 : NaiveC := ⟨[], 0, 10⟩

/-! Helper lemmas about the association-list operations. -/

theorem eq_dropLast_append {α : Type} : ∀ {l : List α} {e : α},
    l.getLast? = some e → l = l.dropLast ++ [e] := by
  intro l
  induction l with
  | nil => intro e h; simp at h
  | cons a t ih =>
    intro e h
    cases t with
    | nil => simp_all
    | cons b t2 =>
      rw [List.getLast?_cons_cons] at h
      have h2 := ih h
      calc a :: b :: t2 = a :: ((b :: t2).dropLast ++ [e]) := by rw [← h2]
        _ = (a :: b :: t2).dropLast ++ [e] := by simp

theorem keysOf_cons {κ ν : Type} (a : κ × ν) (t : List (κ × ν)) :
    keysOf (a :: t) = a.1 :: keysOf t := rfl

theorem eraseK_cons {κ ν : Type} [DecidableEq κ] (a : κ × ν) (t : List (κ × ν)) (k : κ) :
    eraseK (a :: t) k = if a.1 = k then t else a :: eraseK t k := by
  by_cases h : a.1 = k
  · simp [eraseK, List.eraseP_cons, h]
  · simp [eraseK, List.eraseP_cons, h]

theorem lookupA_cons {κ ν : Type} [DecidableEq κ] (a : κ × ν) (t : List (κ × ν)) (k : κ) :
    lookupA (a :: t) k = if a.1 = k then some a.2 else lookupA t k := by
  by_cases h : a.1 = k
  · simp [lookupA, List.find?, h]
  · simp [lookupA, List.find?, h]

theorem keysOf_eraseK {κ ν : Type} [DecidableEq κ] (l : List (κ × ν)) (k : κ) :
    keysOf (eraseK l k) = (keysOf l).erase k := by
  induction l with
  | nil => rfl
  | cons a t ih =>
    by_cases hk : a.1 = k
    · simp [eraseK_cons, hk, keysOf_cons, List.erase_cons]
    · simp [eraseK_cons, hk, keysOf_cons, List.erase_cons, ih]

theorem lookupA_insertA_self {κ ν : Type} [DecidableEq κ] (l : List (κ × ν)) (k : κ) (v : ν) :
    lookupA (insertA l k v) k = some v := by
  rw [insertA, lookupA_cons, if_pos rfl]

theorem lookupA_eraseK_ne {κ ν : Type} [DecidableEq κ] {l : List (κ × ν)} {k k2 : κ}
    (h : k2 ≠ k) : lookupA (eraseK l k) k2 = lookupA l k2 := by
  induction l with
  | nil => rfl
  | cons a t ih =>
    rw [eraseK_cons]
    by_cases hk : a.1 = k
    · have hne : ¬ a.1 = k2 := by rw [hk]; exact fun hx => h hx.symm
      rw [if_pos hk, lookupA_cons, if_neg hne]
    · rw [if_neg hk, lookupA_cons, lookupA_cons]
      by_cases h2 : a.1 = k2
      · rw [if_pos h2, if_pos h2]
      · rw [if_neg h2, if_neg h2, ih]

theorem lookupA_none_iff {κ ν : Type} [DecidableEq κ] {l : List (κ × ν)} {k : κ} :
    lookupA l k = none ↔ k ∉ keysOf l := by
  induction l with
  | nil => simp [lookupA, keysOf]
  | cons a t ih =>
    rw [lookupA_cons, keysOf_cons]
    by_cases hk : a.1 = k
    · rw [if_pos hk]
      simp [hk]
    · rw [if_neg hk, ih]
      simp only [List.mem_cons]
      constructor
      · intro hx hy
        rcases hy with hy | hy
        · exact hk hy.symm
        · exact hx hy
      · intro hx
        exact fun hy => hx (Or.inr hy)

theorem mem_keysOf_of_lookupA {κ ν : Type} [DecidableEq κ] {l : List (κ × ν)} {k : κ} {v : ν}
    (h : lookupA l k = some v) : k ∈ keysOf l := by
  by_contra hx
  rw [← lookupA_none_iff] at hx
  rw [hx] at h
  exact Option.noConfusion h

theorem lookupA_eraseK_self_nodup {κ ν : Type} [DecidableEq κ] {l : List (κ × ν)} {k : κ}
    (hnd : (keysOf l).Nodup) : lookupA (eraseK l k) k = none := by
  rw [lookupA_none_iff, keysOf_eraseK]
  intro hmem
  exact ((List.Nodup.mem_erase_iff hnd).mp hmem).1 rfl

theorem lookupA_eraseK_some_nodup {κ ν : Type} [DecidableEq κ] {l : List (κ × ν)} {k k2 : κ}
    {v : ν} (hnd : (keysOf l).Nodup) (h : lookupA (eraseK l k) k2 = some v) :
    lookupA l k2 = some v := by
  by_cases hk : k2 = k
  · subst hk
    rw [lookupA_eraseK_self_nodup hnd] at h
    exact Option.noConfusion h
  · rwa [lookupA_eraseK_ne hk] at h

theorem lookupA_eraseK_none {κ ν : Type} [DecidableEq κ] {l : List (κ × ν)} {k k2 : κ}
    (h : lookupA l k2 = none) : lookupA (eraseK l k) k2 = none := by
  rw [lookupA_none_iff] at h ⊢
  rw [keysOf_eraseK]
  exact fun hx => h (List.mem_of_mem_erase hx)

theorem keysOf_insertA {κ ν : Type} [DecidableEq κ] (l : List (κ × ν)) (k : κ) (v : ν) :
    keysOf (insertA l k v) = k :: (keysOf l).erase k := by
  rw [insertA, keysOf_cons, keysOf_eraseK]

theorem keysOf_updateValK {κ ν : Type} [DecidableEq κ] (l : List (κ × ν)) (k : κ) (v : ν) :
    keysOf (updateValK l k v) = keysOf l := by
  induction l with
  | nil => rfl
  | cons a t ih =>
    by_cases hk : a.1 = k
    · simp only [updateValK, List.map_cons, if_pos hk]
      rw [keysOf_cons, keysOf_cons, ← updateValK, ih, hk]
    · simp only [updateValK, List.map_cons, if_neg hk]
      rw [keysOf_cons, keysOf_cons, ← updateValK, ih]

theorem keysOf_map_fst_preserving {κ ν : Type} (l : List (κ × ν)) (F : κ × ν → κ × ν)
    (hF : ∀ p, (F p).1 = p.1) : keysOf (l.map F) = keysOf l := by
  induction l with
  | nil => rfl
  | cons a t ih =>
    rw [List.map_cons, keysOf_cons, keysOf_cons, hF a, ih]

theorem moveToFrontK_perm {κ ν : Type} [DecidableEq κ] (l : List (κ × ν)) (k : κ) :
    (moveToFrontK l k).Perm l := by
  induction l with
  | nil => simp [moveToFrontK]
  | cons a t ih =>
    by_cases hk : a.1 = k
    · have hfind : (a :: t).find? (fun p => decide (p.1 = k)) = some a :=
        List.find?_cons_of_pos _ (by simp [hk])
      rw [moveToFrontK, hfind, eraseK_cons, if_pos hk]
    · have hfind : (a :: t).find? (fun p => decide (p.1 = k)) =
          t.find? (fun p => decide (p.1 = k)) :=
        List.find?_cons_of_neg _ (by simp [hk])
      rw [moveToFrontK, hfind, eraseK_cons, if_neg hk]
      rw [moveToFrontK] at ih
      cases hf : t.find? (fun p => decide (p.1 = k)) with
      | none => exact List.Perm.refl _
      | some e =>
        rw [hf] at ih
        exact (List.Perm.swap a e (eraseK t k)).trans (ih.cons a)

theorem moveBackToFront_perm {κ ν : Type} (l : List (κ × ν)) :
    (moveBackToFront l).Perm l := by
  unfold moveBackToFront
  cases hl : l.getLast? with
  | none => exact List.Perm.refl l
  | some e =>
    have h2 := eq_dropLast_append hl
    have hp : (e :: l.dropLast).Perm (l.dropLast ++ [e]) :=
      (List.perm_append_singleton e _).symm
    rw [← h2] at hp
    exact hp

theorem keysOf_dropLast_getLast {κ ν : Type} [DecidableEq κ] {l : List (κ × ν)} {e : κ × ν}
    (h : l.getLast? = some e) (hnd : (keysOf l).Nodup) :
    (keysOf l).erase e.1 = keysOf l.dropLast := by
  have h2 := eq_dropLast_append h
  have h3 : keysOf l = keysOf l.dropLast ++ [e.1] := by
    conv_lhs => rw [h2]
    simp [keysOf]
  have hnm : e.1 ∉ keysOf l.dropLast := by
    rw [h3] at hnd
    have hd := List.disjoint_of_nodup_append hnd
    intro hx
    exact hd hx (by simp)
  rw [h3, List.erase_append_right _ hnm]
  simp

theorem eraseK_mem {κ ν : Type} [DecidableEq κ] {l : List (κ × ν)} {k : κ} {p : κ × ν}
    (h : p ∈ eraseK l k) : p ∈ l :=
  (List.eraseP_sublist l).subset h

/-! Wrappers around the library erase lemmas, stated in the same
`DecidableEq`-derived `BEq` instance that the `keysOf` lemmas above
produce. -/

theorem permEraseMy {κ : Type} [DecidableEq κ] (k : κ) {l1 l2 : List κ} (h : l1.Perm l2) :
    (l1.erase k).Perm (l2.erase k) :=
  h.erase k

theorem nodupEraseMy {κ : Type} [DecidableEq κ] (k : κ) {l : List κ} (h : l.Nodup) :
    (l.erase k).Nodup :=
  h.erase k

theorem notMemEraseSelfMy {κ : Type} [DecidableEq κ] (k : κ) {l : List κ} (h : l.Nodup) :
    k ∉ l.erase k :=
  fun hx => (((List.Nodup.mem_erase_iff h).mp hx).1) rfl

theorem eraseOfNotMemMy {κ : Type} [DecidableEq κ] {k : κ} {l : List κ} (h : k ∉ l) :
    l.erase k = l :=
  List.erase_of_not_mem h

theorem permConsEraseMy {κ : Type} [DecidableEq κ] {k : κ} {l : List κ} (h : k ∈ l) :
    l.Perm (k :: l.erase k) :=
  List.perm_cons_erase h

/-! Eviction is the identity on the state when the level is within the
capacity. -/

theorem imageEvictLoop_state_of_le {svc : Svc} {s : ImageLRU} (fuel : Nat)
    (h : ¬ s.capacity < s.level) : (imageEvictLoop svc fuel s).1 = s := by
  cases fuel with
  | zero => rfl
  | succ n => simp [imageEvictLoop, h]

theorem imageEvict_state_of_le {svc : Svc} {s : ImageLRU} (fuel : Nat)
    (h : ¬ s.capacity < s.level) : (imageEvict svc fuel s).1 = s := by
  unfold imageEvict
  by_cases he : s.evictList.isEmpty
  · rw [if_pos he]
  · rw [if_neg he]
    exact imageEvictLoop_state_of_le fuel h

theorem layerEvictLoop_state_of_le {svc : Svc} {current : ImageID} {s : LayerLRU}
    (fuel : Nat) (cb : ChainID → Nat) (h : ¬ s.capacity < s.level) :
    (layerEvictLoop svc current fuel cb s).1 = s := by
  cases fuel with
  | zero => rfl
  | succ n => simp [layerEvictLoop, h]

theorem layerEvict_state_of_le {svc : Svc} {current : ImageID} {s : LayerLRU} (fuel : Nat)
    (h : ¬ s.capacity < s.level) : (layerEvict svc current fuel s).1 = s := by
  unfold layerEvict
  by_cases he : s.evictList.isEmpty
  · rw [if_pos he]
  · rw [if_neg he]
    exact layerEvictLoop_state_of_le fuel _ h

theorem archiveEvictLoop_state_of_le {svc : Svc} {s : ArchiveLRU}
    (fuel : Nat) (cb : ChainID → Nat) (h : ¬ s.capacity < s.level) :
    (archiveEvictLoop svc fuel cb s).1 = s := by
  cases fuel with
  | zero => rfl
  | succ n => simp [archiveEvictLoop, h]

theorem archiveEvict_state_of_le {svc : Svc} {s : ArchiveLRU} (fuel : Nat)
    (h : ¬ s.capacity < s.level) : (archiveEvict svc fuel s).1 = s := by
  unfold archiveEvict
  by_cases he : s.evictList.isEmpty
  · rw [if_pos he]
  · rw [if_neg he]
    exact archiveEvictLoop_state_of_le fuel _ h

/-! Preservation of the map/list agreement invariant by the layer-LRU
operations. -/

theorem removeReleased_inv {released : List Metadata} :
    ∀ {s : LayerLRU}, LayerInv s → LayerInv (removeReleased released s) := by
  induction released with
  | nil => intro s h; exact h
  | cons m rest ih =>
    intro s h
    rw [removeReleased, List.foldl_cons]
    cases hl : lookupA s.layers m.chainID with
    | none =>
      exact ih h
    | some cl =>
      refine ih ⟨?_, ?_⟩
      · simp only [keysOf_eraseK]
        exact permEraseMy m.chainID h.1
      · simp only [keysOf_eraseK]
        exact nodupEraseMy m.chainID h.2

theorem updateHandleK_inv {s : LayerLRU} {k : ChainID} {h : LayerHandle}
    (hinv : LayerInv s) : LayerInv (updateHandleK s k h) := by
  have hF : ∀ p : ChainID × CacheLayer,
      ((fun p : ChainID × CacheLayer =>
        if p.1 = k then (p.1, { p.2 with layer := h }) else p) p).1 = p.1 := by
    intro p
    by_cases hp : p.1 = k
    · simp [hp]
    · simp [hp]
  constructor
  · show (keysOf (s.layers.map _)).Perm (keysOf (s.evictList.map _))
    rw [keysOf_map_fst_preserving _ _ hF, keysOf_map_fst_preserving _ _ hF]
    exact hinv.1
  · show (keysOf (s.layers.map _)).Nodup
    rw [keysOf_map_fst_preserving _ _ hF]
    exact hinv.2

theorem moveBackToFront_keys_perm {κ ν : Type} (l : List (κ × ν)) :
    (keysOf (moveBackToFront l)).Perm (keysOf l) :=
  (moveBackToFront_perm l).map Prod.fst

theorem moveToFrontK_keys_perm {κ ν : Type} [DecidableEq κ] (l : List (κ × ν)) (k : κ) :
    (keysOf (moveToFrontK l k)).Perm (keysOf l) :=
  (moveToFrontK_perm l k).map Prod.fst

theorem layerEvictLoop_inv {svc : Svc} {current : ImageID} :
    ∀ (fuel : Nat) (cb : ChainID → Nat) {s : LayerLRU}, LayerInv s →
      LayerInv (layerEvictLoop svc current fuel cb s).1 := by
  intro fuel
  induction fuel with
  | zero => intro cb s h; exact h
  | succ n ih =>
    intro cb s hinv
    rw [layerEvictLoop]
    split
    · split
      · exact hinv
      · rename_i kk cl _
        split
      -- the delete scan is fatal, a conflict, or clean in the order of the match
        · exact hinv
        · dsimp only
          split
          · exact hinv
          · exact ih _ hinv
        · dsimp only
          split
          · exact hinv
          · exact hinv
          · rename_i h released _
            have hinv1 : LayerInv (updateHandleK s cl.layer.chainID h) :=
              updateHandleK_inv hinv
            split
            · have hinv2 :
                  LayerInv
                    { updateHandleK s cl.layer.chainID h with
                      evictList :=
                        moveBackToFront (updateHandleK s cl.layer.chainID h).evictList } := by
                constructor
                · exact hinv1.1.trans (moveBackToFront_keys_perm _).symm
                · exact hinv1.2
              split
              · exact hinv2
              · exact ih _ hinv2
            · exact ih _ (removeReleased_inv hinv1)
    · exact hinv

theorem layerEvict_inv {svc : Svc} {current : ImageID} (fuel : Nat) {s : LayerLRU}
    (hinv : LayerInv s) : LayerInv (layerEvict svc current fuel s).1 := by
  unfold layerEvict
  by_cases he : s.evictList.isEmpty
  · rw [if_pos he]
    exact hinv
  · rw [if_neg he]
    exact layerEvictLoop_inv fuel _ hinv

theorem layerPutLayer_inv {svc : Svc} (hok : SvcLayersOk svc) (fuel : Nat)
    (chainID : ChainID) (img : Image) {s : LayerLRU} (hinv : LayerInv s) :
    LayerInv (layerPutLayer svc fuel chainID img s) := by
  obtain ⟨l, hl⟩ := Option.isSome_iff_exists.mp (hok.1 chainID)
  obtain ⟨sz, hsz⟩ := Option.isSome_iff_exists.mp (hok.2 l)
  unfold layerPutLayer
  simp only [hl, hsz]
  apply layerEvict_inv
  cases hlk : lookupA s.layers chainID with
  | some old =>
    constructor
    · simp only [keysOf_insertA, keysOf_cons, keysOf_eraseK]
      exact (permEraseMy chainID hinv.1).cons chainID
    · simp only [keysOf_insertA]
      exact List.Nodup.cons (notMemEraseSelfMy chainID hinv.2) (nodupEraseMy chainID hinv.2)
  | none =>
    have hnm : chainID ∉ keysOf s.layers := lookupA_none_iff.mp hlk
    constructor
    · simp only [keysOf_insertA, keysOf_cons, eraseOfNotMemMy hnm]
      exact hinv.1.cons chainID
    · simp only [keysOf_insertA, eraseOfNotMemMy hnm]
      exact hinv.2.cons hnm

theorem layerPutLayer_fold_inv {svc : Svc} (hok : SvcLayersOk svc) (fuel : Nat)
    (img : Image) : ∀ (chains : List ChainID) {s : LayerLRU}, LayerInv s →
      LayerInv (chains.foldl (fun acc c => layerPutLayer svc fuel c img acc) s) := by
  intro chains
  induction chains with
  | nil => intro s h; exact h
  | cons c rest ih =>
    intro s h
    rw [List.foldl_cons]
    exact ih (layerPutLayer_inv hok fuel c img h)

theorem layerPutImage_inv {svc : Svc} (hok : SvcLayersOk svc) (fuel : Nat)
    (img? : Option Image) {s : LayerLRU} (hinv : LayerInv s) :
    LayerInv (layerPutImage svc fuel img? s) := by
  cases img? with
  | none => exact hinv
  | some img =>
    unfold layerPutImage
    dsimp only
    by_cases hchk : checkImageSize svc s.capacity img = true
    · rw [if_pos hchk]
      exact layerPutLayer_fold_inv hok fuel img (chainIDsTopDown img.diffIDs) hinv
    · rw [if_neg hchk]
      exact hinv

theorem layerUpdateLayer_inv {svc : Svc} (fuel : Nat) (chainID : ChainID) (img : Image)
    {s : LayerLRU} (hinv : LayerInv s) : LayerInv (layerUpdateLayer svc fuel chainID img s) := by
  unfold layerUpdateLayer
  apply layerEvict_inv
  cases hlk : lookupA s.layers chainID with
  | none => exact hinv
  | some cl =>
    have hmem : chainID ∈ keysOf s.layers := mem_keysOf_of_lookupA hlk
    constructor
    · simp only [keysOf_insertA]
      refine ((permConsEraseMy hmem).symm.trans hinv.1).trans ?_
      refine ((moveToFrontK_keys_perm _ _).trans ?_).symm
      rw [keysOf_updateValK]
    · simp only [keysOf_insertA]
      exact List.Nodup.cons (notMemEraseSelfMy chainID hinv.2) (nodupEraseMy chainID hinv.2)

theorem layerUpdateLayer_fold_inv {svc : Svc} (fuel : Nat) (img : Image) :
    ∀ (chains : List ChainID) {s : LayerLRU}, LayerInv s →
      LayerInv (chains.foldl (fun acc c => layerUpdateLayer svc fuel c img acc) s) := by
  intro chains
  induction chains with
  | nil => intro s h; exact h
  | cons c rest ih =>
    intro s h
    rw [List.foldl_cons]
    exact ih (layerUpdateLayer_inv fuel c img h)

theorem layerUpdateImage_inv {svc : Svc} (fuel : Nat) (refOrID : String) {s : LayerLRU}
    (hinv : LayerInv s) : LayerInv (layerUpdateImage svc fuel refOrID s) := by
  unfold layerUpdateImage
  cases hgi : svc.getImage refOrID with
  | none => exact hinv
  | some img => exact layerUpdateLayer_fold_inv fuel img (chainIDsTopDown img.diffIDs) hinv

theorem layerRemoveLayer_inv {svc : Svc} (chainID : ChainID) {s : LayerLRU}
    (hinv : LayerInv s) : LayerInv (layerRemoveLayer svc chainID s) := by
  unfold layerRemoveLayer
  cases hlk : lookupA s.layers chainID with
  | none => exact hinv
  | some cl =>
    dsimp only
    cases svc.releaseRO cl.layer with
    | ok released => exact removeReleased_inv hinv
    | notRetained => exact hinv
    | otherErr => exact hinv

theorem layerRemoveLayer_fold_inv {svc : Svc} :
    ∀ (chains : List ChainID) {s : LayerLRU}, LayerInv s →
      LayerInv (chains.foldl (fun acc c => layerRemoveLayer svc c acc) s) := by
  intro chains
  induction chains with
  | nil => intro s h; exact h
  | cons c rest ih =>
    intro s h
    rw [List.foldl_cons]
    exact ih (layerRemoveLayer_inv c h)

theorem layerRemoveImage_inv {svc : Svc} (imgID : ImageID) {s : LayerLRU}
    (hinv : LayerInv s) : LayerInv (layerRemoveImage svc imgID s) := by
  unfold layerRemoveImage
  cases hlk : lookupA s.images imgID with
  | none => exact hinv
  | some img =>
    exact layerRemoveLayer_fold_inv (chainIDsBottomUp img.diffIDs)
      (s := { s with images := eraseK s.images imgID }) hinv

/-! The same preservation suite for the archive-LRU engine. -/

theorem removeReleasedA_inv {released : List Metadata} :
    ∀ {s : ArchiveLRU}, ArchiveInv s → ArchiveInv (removeReleasedA released s) := by
  induction released with
  | nil => intro s h; exact h
  | cons m rest ih =>
    intro s h
    rw [removeReleasedA, List.foldl_cons]
    cases hl : lookupA s.layers m.chainID with
    | none =>
      exact ih h
    | some cl =>
      refine ih ⟨?_, ?_⟩
      · simp only [keysOf_eraseK]
        exact permEraseMy m.chainID h.1
      · simp only [keysOf_eraseK]
        exact nodupEraseMy m.chainID h.2

theorem archiveEvictLoop_inv {svc : Svc} :
    ∀ (fuel : Nat) (cb : ChainID → Nat) {s : ArchiveLRU}, ArchiveInv s →
      ArchiveInv (archiveEvictLoop svc fuel cb s).1 := by
  intro fuel
  induction fuel with
  | zero => intro cb s h; exact h
  | succ n ih =>
    intro cb s hinv
    rw [archiveEvictLoop]
    split
    · split
      · exact hinv
      · rename_i kk al _
        split
        · exact hinv
        · dsimp only
          split
          · exact hinv
          · exact ih _ hinv
        · dsimp only
          split
          · exact hinv
          · exact hinv
          · rename_i released _
            split
            · have hinv2 :
                  ArchiveInv { s with evictList := moveBackToFront s.evictList } := by
                constructor
                · exact hinv.1.trans (moveBackToFront_keys_perm _).symm
                · exact hinv.2
              split
              · exact hinv2
              · exact ih _ hinv2
            · exact ih _ (removeReleasedA_inv hinv)
    · exact hinv

theorem archiveEvict_inv {svc : Svc} (fuel : Nat) {s : ArchiveLRU}
    (hinv : ArchiveInv s) : ArchiveInv (archiveEvict svc fuel s).1 := by
  unfold archiveEvict
  by_cases he : s.evictList.isEmpty
  · rw [if_pos he]
    exact hinv
  · rw [if_neg he]
    exact archiveEvictLoop_inv fuel _ hinv

theorem archivePutLayer_inv {svc : Svc} (hok : SvcLayersOk svc) (fuel : Nat)
    (chainID : ChainID) (img : Image) {s : ArchiveLRU} (hinv : ArchiveInv s) :
    ArchiveInv (archivePutLayer svc fuel chainID img s).1 := by
  obtain ⟨l, hl⟩ := Option.isSome_iff_exists.mp (hok.1 chainID)
  obtain ⟨sz, hsz⟩ := Option.isSome_iff_exists.mp (hok.2 l)
  unfold archivePutLayer
  simp only [hl, hsz]
  apply archiveEvict_inv
  cases hlk : lookupA s.layers chainID with
  | some old =>
    constructor
    · simp only [keysOf_insertA, keysOf_cons, keysOf_eraseK]
      exact (permEraseMy chainID hinv.1).cons chainID
    · simp only [keysOf_insertA]
      exact List.Nodup.cons (notMemEraseSelfMy chainID hinv.2) (nodupEraseMy chainID hinv.2)
  | none =>
    have hnm : chainID ∉ keysOf s.layers := lookupA_none_iff.mp hlk
    constructor
    · simp only [keysOf_insertA, keysOf_cons, eraseOfNotMemMy hnm]
      exact hinv.1.cons chainID
    · simp only [keysOf_insertA, eraseOfNotMemMy hnm]
      exact hinv.2.cons hnm

theorem archivePutLayer_fold_inv {svc : Svc} (hok : SvcLayersOk svc) (fuel : Nat)
    (img : Image) : ∀ (chains : List ChainID) {s : ArchiveLRU}, ArchiveInv s →
      ArchiveInv (chains.foldl (fun acc c => (archivePutLayer svc fuel c img acc).1) s) := by
  intro chains
  induction chains with
  | nil => intro s h; exact h
  | cons c rest ih =>
    intro s h
    rw [List.foldl_cons]
    exact ih (archivePutLayer_inv hok fuel c img h)

theorem archivePutImage_inv {svc : Svc} (hok : SvcLayersOk svc) (fuel : Nat)
    (img? : Option Image) {s : ArchiveLRU} (hinv : ArchiveInv s) :
    ArchiveInv (archivePutImage svc fuel img? s) := by
  cases img? with
  | none => exact hinv
  | some img =>
    unfold archivePutImage
    dsimp only
    by_cases hchk : checkImageSize svc s.capacity img = true
    · rw [if_pos hchk]
      exact archivePutLayer_fold_inv hok fuel img (chainIDsTopDown img.diffIDs) hinv
    · rw [if_neg hchk]
      exact hinv

theorem archiveUpdateLayer_inv {svc : Svc} (fuel : Nat) (chainID : ChainID) (img : Image)
    {s : ArchiveLRU} (hinv : ArchiveInv s) :
    ArchiveInv (archiveUpdateLayer svc fuel chainID img s) := by
  unfold archiveUpdateLayer
  apply archiveEvict_inv
  cases hlk : lookupA s.layers chainID with
  | none => exact hinv
  | some al =>
    have hmem : chainID ∈ keysOf s.layers := mem_keysOf_of_lookupA hlk
    constructor
    · simp only [keysOf_insertA]
      refine ((permConsEraseMy hmem).symm.trans hinv.1).trans ?_
      refine ((moveToFrontK_keys_perm _ _).trans ?_).symm
      rw [keysOf_updateValK]
    · simp only [keysOf_insertA]
      exact List.Nodup.cons (notMemEraseSelfMy chainID hinv.2) (nodupEraseMy chainID hinv.2)

theorem archiveUpdateLayer_fold_inv {svc : Svc} (fuel : Nat) (img : Image) :
    ∀ (chains : List ChainID) {s : ArchiveLRU}, ArchiveInv s →
      ArchiveInv (chains.foldl (fun acc c => archiveUpdateLayer svc fuel c img acc) s) := by
  intro chains
  induction chains with
  | nil => intro s h; exact h
  | cons c rest ih =>
    intro s h
    rw [List.foldl_cons]
    exact ih (archiveUpdateLayer_inv fuel c img h)

theorem archiveUpdateImage_inv {svc : Svc} (fuel : Nat) (refOrID : String) {s : ArchiveLRU}
    (hinv : ArchiveInv s) : ArchiveInv (archiveUpdateImage svc fuel refOrID s) := by
  unfold archiveUpdateImage
  cases hgi : svc.getImage refOrID with
  | none => exact hinv
  | some img => exact archiveUpdateLayer_fold_inv fuel img (chainIDsTopDown img.diffIDs) hinv

theorem archiveRemoveLayer_inv {svc : Svc} (chainID : ChainID) {s : ArchiveLRU}
    (hinv : ArchiveInv s) : ArchiveInv (archiveRemoveLayer svc chainID s) := by
  unfold archiveRemoveLayer
  cases hlk : lookupA s.layers chainID with
  | none => exact hinv
  | some al =>
    dsimp only
    cases svc.releaseRO al.layer with
    | ok released => exact removeReleasedA_inv hinv
    | notRetained => exact hinv
    | otherErr => exact hinv

theorem archiveRemoveLayer_fold_inv {svc : Svc} :
    ∀ (chains : List ChainID) {s : ArchiveLRU}, ArchiveInv s →
      ArchiveInv (chains.foldl (fun acc c => archiveRemoveLayer svc c acc) s) := by
  intro chains
  induction chains with
  | nil => intro s h; exact h
  | cons c rest ih =>
    intro s h
    rw [List.foldl_cons]
    exact ih (archiveRemoveLayer_inv c h)

theorem archiveRemoveImage_inv {svc : Svc} (imgID : ImageID) {s : ArchiveLRU}
    (hinv : ArchiveInv s) : ArchiveInv (archiveRemoveImage svc imgID s) := by
  unfold archiveRemoveImage
  cases hlk : lookupA s.images imgID with
  | none => exact hinv
  | some img =>
    exact archiveRemoveLayer_fold_inv (chainIDsBottomUp img.diffIDs)
      (s := { s with images := eraseK s.images imgID }) hinv

/-! The preservation suite for the image-LRU engine. -/

theorem getLast?_mem_my {α : Type} {l : List α} {e : α} (h : l.getLast? = some e) :
    e ∈ l := by
  have h2 := eq_dropLast_append h
  rw [h2]
  exact List.mem_append_right _ (List.mem_singleton_self e)

theorem imageEvictLoop_inv {svc : Svc} :
    ∀ (fuel : Nat) {s : ImageLRU}, ImageInv s → ImageInv (imageEvictLoop svc fuel s).1 := by
  intro fuel
  induction fuel with
  | zero => intro s h; exact h
  | succ n ih =>
    intro s hinv
    rw [imageEvictLoop]
    split
    · split
      · exact hinv
      · rename_i kk img hlast
        split
        · exact ih hinv
        · rename_i size hsize
          split
          · exact ih hinv
          · exact ih hinv
          · exact hinv
          · -- successful deletion of the back candidate
            have hmem : (kk, img) ∈ s.evictList := getLast?_mem_my hlast
            have hco : kk = img.id := hinv.2.2 (kk, img) hmem
            have hndL : (keysOf s.evictList).Nodup :=
              (hinv.1.nodup_iff).mp hinv.2.1
            have hkeys : (keysOf s.evictList).erase kk = keysOf s.evictList.dropLast :=
              keysOf_dropLast_getLast hlast hndL
            refine ih ⟨?_, ?_, ?_⟩
            · simp only [keysOf_eraseK, ← hco, ← hkeys]
              exact permEraseMy kk hinv.1
            · simp only [keysOf_eraseK, ← hco]
              exact nodupEraseMy kk hinv.2.1
            · intro p hp
              exact hinv.2.2 p ((List.dropLast_sublist s.evictList).subset hp)
    · exact hinv

theorem imageEvict_inv {svc : Svc} (fuel : Nat) {s : ImageLRU}
    (hinv : ImageInv s) : ImageInv (imageEvict svc fuel s).1 := by
  unfold imageEvict
  by_cases he : s.evictList.isEmpty
  · rw [if_pos he]
    exact hinv
  · rw [if_neg he]
    exact imageEvictLoop_inv fuel hinv

theorem imagePutImage_inv {svc : Svc} (fuel : Nat) (img? : Option Image) {s : ImageLRU}
    (hinv : ImageInv s) : ImageInv (imagePutImage svc fuel img? s) := by
  cases img? with
  | none => exact hinv
  | some img =>
    unfold imagePutImage
    dsimp only
    by_cases hchk : checkImageSize svc s.capacity img = true
    · rw [if_pos hchk]
      cases hlk : lookupA s.images img.id with
      | some w =>
        refine ⟨?_, hinv.2.1, ?_⟩
        · exact hinv.1.trans (moveToFrontK_keys_perm _ _).symm
        · intro p hp
          exact hinv.2.2 p ((moveToFrontK_perm s.evictList img.id).mem_iff.mp hp)
      | none =>
        dsimp only
        cases hgs : getImageSize svc img with
        | none => exact hinv
        | some newSize =>
          apply imageEvict_inv
          have hnm : img.id ∉ keysOf s.images := lookupA_none_iff.mp hlk
          refine ⟨?_, ?_, ?_⟩
          · simp only [keysOf_insertA, keysOf_cons, eraseOfNotMemMy hnm]
            exact hinv.1.cons img.id
          · simp only [keysOf_insertA, eraseOfNotMemMy hnm]
            exact hinv.2.1.cons hnm
          · intro p hp
            rcases List.mem_cons.mp hp with hp | hp
            · rw [hp]
            · exact hinv.2.2 p hp
    · rw [if_neg hchk]
      exact hinv

theorem imageUpdateImage_inv {svc : Svc} (refOrID : String) {s : ImageLRU}
    (hinv : ImageInv s) : ImageInv (imageUpdateImage svc refOrID s) := by
  unfold imageUpdateImage
  cases hgi : svc.getImage refOrID with
  | none => exact hinv
  | some img =>
    dsimp only
    cases hlk : lookupA s.images img.id with
    | none => exact hinv
    | some w =>
      refine ⟨?_, hinv.2.1, ?_⟩
      · exact hinv.1.trans (moveToFrontK_keys_perm _ _).symm
      · intro p hp
        exact hinv.2.2 p ((moveToFrontK_perm s.evictList img.id).mem_iff.mp hp)

theorem imageRemoveImage_inv {svc : Svc} (imgID : ImageID) {s : ImageLRU}
    (hinv : ImageInv s) : ImageInv (imageRemoveImage svc imgID s) := by
  unfold imageRemoveImage
  cases hlk : lookupA s.images imgID with
  | none => exact hinv
  | some img =>
    dsimp only
    cases hgs : getImageSize svc img with
    | none => exact hinv
    | some size =>
      refine ⟨?_, ?_, ?_⟩
      · simp only [keysOf_eraseK]
        exact permEraseMy imgID hinv.1
      · simp only [keysOf_eraseK]
        exact nodupEraseMy imgID hinv.2.1
      · intro p hp
        exact hinv.2.2 p (eraseK_mem hp)

/-! Claim C4: capacity-string parse failure. -/

/-- C4 counterexample: the capacity string of `exCfgBadCap` is
unparseable, and `NewImageCache` then returns the parse error — the
construction fails instead of falling back to a 1 GB default. -/
theorem C4_NewImageCache_fails_on_parse_error_cex :
    exParseNone exCfgBadCap.cacheCapacity = none ∧
      NewImageCache exParseNone exCfgBadCap = .error .parseErr :=
  ⟨rfl, rfl⟩

/-- C4 (amended): on a capacity parse failure, `images.newCacheDriver`
falls back to the fixed default capacity string ("1GB") with a warning
and still returns a cache driver, whereas `cache.NewImageCache`
propagates the parse error and fails construction. -/
theorem C4_capacity_parse_fallback :
    (∀ (parse : String → Option Int) (cfg : CacheConfig),
        parse cfg.cacheCapacity = none →
        NewImageCache parse cfg = .error .parseErr) ∧
    (∀ (parse : String → Option Int) (driver capacity : String) (g : Int),
        parse capacity = none → parse DefaultCacheCapacity = some g →
        newCacheDriver parse driver capacity = (.lruLayerDriver, g)) := by
  constructor
  · intro parse cfg hp
    unfold NewImageCache
    rw [hp]
  · intro parse driver capacity g hp hd
    unfold newCacheDriver
    rw [hp, hd]
    dsimp only [Option.getD]
    split <;> rfl

/-- C4 witness: the amended theorem applied at the concrete parser that
rejects everything except the default. -/
theorem C4_capacity_parse_fallback_witness :
    exParse "bogus" = none ∧ exParse DefaultCacheCapacity = some 1073741824 ∧
      newCacheDriver exParse "layer-lru" "bogus" = (.lruLayerDriver, 1073741824) :=
  ⟨by decide, by decide,
    C4_capacity_parse_fallback.2 exParse "layer-lru" "bogus" 1073741824
      (by decide) (by decide)⟩

/-! Claim C5: policy-name dispatch. -/

/-- C5 counterexample: configuring `cache_policy = "naive"` does not
select the naive engine — `NewImageCache` has no case for it and falls
through to image-LRU. -/
theorem C5_naive_policy_selects_imageLRU_cex :
    NewImageCache exParse exCfgNaive = .ok (.imageLRU, 10737418240) ∧
      EngineTag.imageLRU ≠ EngineTag.naive :=
  ⟨rfl, by decide⟩

/-- C5 (amended): `image-lru`, `layer-lru` and `archive-lru` (the
latter requiring archive mode, else a construction error) select their
engines; any other policy name, including "naive", selects image-LRU;
the naive engine is never selected by the factory. -/
theorem C5_policy_dispatch :
    ∀ (parse : String → Option Int) (cfg : CacheConfig) (c : Int),
      parse cfg.cacheCapacity = some c →
      (toLowerAscii cfg.cachePolicy = "image-lru" →
          NewImageCache parse cfg = .ok (.imageLRU, c)) ∧
      (toLowerAscii cfg.cachePolicy = "layer-lru" →
          NewImageCache parse cfg = .ok (.layerLRU, c)) ∧
      (toLowerAscii cfg.cachePolicy = "archive-lru" → cfg.cacheArchive = true →
          NewImageCache parse cfg = .ok (.archiveLRU, c)) ∧
      (toLowerAscii cfg.cachePolicy = "archive-lru" → cfg.cacheArchive = false →
          NewImageCache parse cfg = .error .archiveRequired) ∧
      (toLowerAscii cfg.cachePolicy = "naive" →
          NewImageCache parse cfg = .ok (.imageLRU, c)) := by
  intro parse cfg c hp
  refine ⟨?_, ?_, ?_, ?_, ?_⟩ <;> intro hpol
  · unfold NewImageCache
    rw [hp, hpol]
    rfl
  · unfold NewImageCache
    rw [hp, hpol]
    rfl
  · intro har
    unfold NewImageCache
    rw [hp, hpol, har]
    rfl
  · intro har
    unfold NewImageCache
    rw [hp, hpol, har]
    rfl
  · unfold NewImageCache
    rw [hp, hpol]
    rfl

/-- C5 witness: the dispatch theorem applied at the concrete
configuration selecting "naive". -/
theorem C5_policy_dispatch_witness :
    exParse exCfgNaive.cacheCapacity = some 10737418240 ∧
      toLowerAscii exCfgNaive.cachePolicy = "naive" ∧
      NewImageCache exParse exCfgNaive = .ok (.imageLRU, 10737418240) :=
  ⟨by decide, by decide,
    (C5_policy_dispatch exParse exCfgNaive 10737418240 (by decide)).2.2.2.2 (by decide)⟩

/-! Claim C6: archive admission with an oversized companion file. -/

/-- C6 counterexample: the companion archive (size 100, layer diff size
10) is deleted on admission, but the stored record's `compactSize` is
the stat'd 100, not 0 — the field is never reset after the deletion. -/
theorem C6_compactSize_not_reset_cex :
    (archivePutLayer exSvcArch 1 ["d6"] exImg6 exArchive0).2 = ["d6"] ∧
      (lookupA (archivePutLayer exSvcArch 1 ["d6"] exImg6 exArchive0).1.layers
          ["d6"]).map (fun al => al.compactSize) = some 100 ∧
      ¬ (lookupA (archivePutLayer exSvcArch 1 ["d6"] exImg6 exArchive0).1.layers
          ["d6"]).map (fun al => al.compactSize) = some 0 :=
  ⟨by decide, by decide, by decide⟩

/-- C6 (amended): when the companion archive on disk is larger than the
layer's diff size, admission deletes the archive file, but the stored
record keeps `compactSize` equal to the stat'd archive size (it is not
reset to 0). -/
theorem C6_archive_deleted_compactSize_kept :
    ∀ (svc : Svc) (fuel : Nat) (chainID : ChainID) (img : Image) (s : ArchiveLRU)
      (l : LayerHandle) (size csz : Int),
      lookupA s.layers chainID = none →
      svc.getROLayer chainID = some l →
      svc.diffSize l = some size →
      svc.statArchive l.diffID = some (some csz) →
      size < csz →
      s.level + size ≤ s.capacity →
      (archivePutLayer svc fuel chainID img s).2 = [l.diffID] ∧
        lookupA (archivePutLayer svc fuel chainID img s).1.layers chainID =
          some { layer := l, size := size, images := [img.id], os := img.os
                 compactSize := csz } := by
  intro svc fuel chainID img s l size csz hlk hl hsz hstat hbig hcap
  unfold archivePutLayer
  simp only [hlk, hl, hsz, hstat]
  rw [if_pos (by exact hbig)]
  constructor
  · rfl
  · rw [archiveEvict_state_of_le fuel ?_]
    · exact lookupA_insertA_self _ _ _
    · simp only [not_lt]
      exact by simpa using hcap

/-- C6 witness: the amended theorem applied at the concrete archive
scenario (diff size 10, archive size 100). -/
theorem C6_archive_deleted_compactSize_kept_witness :
    lookupA exArchive0.layers ["d6"] = none ∧
      exSvcArch.statArchive exH6.diffID = some (some 100) ∧
      (archivePutLayer exSvcArch 1 ["d6"] exImg6 exArchive0).2 = ["d6"] ∧
      lookupA (archivePutLayer exSvcArch 1 ["d6"] exImg6 exArchive0).1.layers ["d6"] =
        some { layer := exH6, size := 10, images := ["F"], os := "linux"
               compactSize := 100 } :=
  ⟨by decide, by decide,
    (C6_archive_deleted_compactSize_kept exSvcArch 1 ["d6"] exImg6 exArchive0 exH6 10 100
      (by decide) (by decide) (by decide) (by decide) (by decide) (by decide)).1,
    (C6_archive_deleted_compactSize_kept exSvcArch 1 ["d6"] exImg6 exArchive0 exH6 10 100
      (by decide) (by decide) (by decide) (by decide) (by decide) (by decide)).2⟩

/-! Claim C7: the index map and the eviction list agree. -/

/-- C7 counterexample: a PutImage over a well-formed layer-LRU state in
which `GetReadOnlyLayer` fails while refreshing the resident base chain
leaves the chain mapped in `layers` but absent from the eviction list,
so the key set and the node set differ. -/
theorem C7_stale_mapping_cex :
    ((keysOf exLayer7.layers).Perm (keysOf exLayer7.evictList) ∧
      (keysOf exLayer7.layers).Nodup) ∧
    keysOf (layerPutImage exSvcStale 5 (some exImg7) exLayer7).layers =
      [["e1", "e2"], ["e1"]] ∧
    keysOf (layerPutImage exSvcStale 5 (some exImg7) exLayer7).evictList =
      [["e1", "e2"]] ∧
    ¬ (keysOf (layerPutImage exSvcStale 5 (some exImg7) exLayer7).layers).Perm
        (keysOf (layerPutImage exSvcStale 5 (some exImg7) exLayer7).evictList) :=
  ⟨⟨by decide, by decide⟩, by decide, by decide, by decide⟩

/-- C7 (amended): after every public operation the key set of the index
map and the node set of the eviction list are identical (as the
invariant `ImageInv`/`LayerInv`/`ArchiveInv` — key-set permutation plus
nodup), unconditionally for image-LRU, and for the layer and archive
engines provided the layer acquisitions and size probes of `putLayer`
succeed; when such a call fails while refreshing a resident chain, a
stale mapping survives (see the counterexample). -/
theorem C7_index_list_agreement :
    (∀ (svc : Svc) (fuel : Nat) (img? : Option Image) (s : ImageLRU), ImageInv s →
        ImageInv (imagePutImage svc fuel img? s)) ∧
    (∀ (svc : Svc) (refOrID : String) (s : ImageLRU), ImageInv s →
        ImageInv (imageUpdateImage svc refOrID s)) ∧
    (∀ (svc : Svc) (imgID : ImageID) (s : ImageLRU), ImageInv s →
        ImageInv (imageRemoveImage svc imgID s)) ∧
    (∀ (svc : Svc), SvcLayersOk svc →
        ∀ (fuel : Nat) (img? : Option Image) (s : LayerLRU), LayerInv s →
          LayerInv (layerPutImage svc fuel img? s)) ∧
    (∀ (svc : Svc) (fuel : Nat) (refOrID : String) (s : LayerLRU), LayerInv s →
        LayerInv (layerUpdateImage svc fuel refOrID s)) ∧
    (∀ (svc : Svc) (imgID : ImageID) (s : LayerLRU), LayerInv s →
        LayerInv (layerRemoveImage svc imgID s)) ∧
    (∀ (svc : Svc), SvcLayersOk svc →
        ∀ (fuel : Nat) (img? : Option Image) (s : ArchiveLRU), ArchiveInv s →
          ArchiveInv (archivePutImage svc fuel img? s)) ∧
    (∀ (svc : Svc) (fuel : Nat) (refOrID : String) (s : ArchiveLRU), ArchiveInv s →
        ArchiveInv (archiveUpdateImage svc fuel refOrID s)) ∧
    (∀ (svc : Svc) (imgID : ImageID) (s : ArchiveLRU), ArchiveInv s →
        ArchiveInv (archiveRemoveImage svc imgID s)) :=
  ⟨fun _ fuel img? _ h => imagePutImage_inv fuel img? h,
    fun _ refOrID _ h => imageUpdateImage_inv refOrID h,
    fun _ imgID _ h => imageRemoveImage_inv imgID h,
    fun _ hok fuel img? _ h => layerPutImage_inv hok fuel img? h,
    fun _ fuel refOrID _ h => layerUpdateImage_inv fuel refOrID h,
    fun _ imgID _ h => layerRemoveImage_inv imgID h,
    fun _ hok fuel img? _ h => archivePutImage_inv hok fuel img? h,
    fun _ fuel refOrID _ h => archiveUpdateImage_inv fuel refOrID h,
    fun _ imgID _ h => archiveRemoveImage_inv imgID h⟩

/-- C7 witness: the layer-LRU RemoveImage conjunct applied at the
concrete one-image cache. -/
theorem C7_index_list_agreement_witness :
    LayerInv exLayer8 ∧ LayerInv (layerRemoveImage exSvcRel8 "A" exLayer8) :=
  ⟨⟨by decide, by decide⟩,
    C7_index_list_agreement.2.2.2.2.2.1 exSvcRel8 "A" exLayer8 ⟨by decide, by decide⟩⟩

/-! Claim C8: RemoveImage and the layer records' image lists. -/

theorem removeReleased_lookup_none {released : List Metadata} :
    ∀ {s : LayerLRU} {c : ChainID}, lookupA s.layers c = none →
      lookupA (removeReleased released s).layers c = none := by
  induction released with
  | nil => intro s c h; exact h
  | cons m rest ih =>
    intro s c h
    rw [removeReleased, List.foldl_cons]
    cases hl : lookupA s.layers m.chainID with
    | none => exact ih h
    | some cl => exact ih (lookupA_eraseK_none h)

theorem removeReleased_lookup_some {released : List Metadata} :
    ∀ {s : LayerLRU} {c : ChainID} {cl : CacheLayer}, (keysOf s.layers).Nodup →
      lookupA (removeReleased released s).layers c = some cl →
      lookupA s.layers c = some cl := by
  induction released with
  | nil => intro s c cl _ h; exact h
  | cons m rest ih =>
    intro s c cl hnd h
    rw [removeReleased, List.foldl_cons] at h
    cases hl : lookupA s.layers m.chainID with
    | none =>
      rw [hl] at h
      exact ih hnd h
    | some old =>
      rw [hl] at h
      have hnd2 : (keysOf (eraseK s.layers m.chainID)).Nodup := by
        rw [keysOf_eraseK]
        exact nodupEraseMy m.chainID hnd
      exact lookupA_eraseK_some_nodup hnd (ih hnd2 h)

theorem removeReleased_drops_released {released : List Metadata} :
    ∀ {s : LayerLRU} {m : Metadata}, (keysOf s.layers).Nodup → m ∈ released →
      lookupA (removeReleased released s).layers m.chainID = none := by
  induction released with
  | nil => intro s m _ hm; exact absurd hm (List.not_mem_nil m)
  | cons m0 rest ih =>
    intro s m hnd hm
    rw [removeReleased, List.foldl_cons]
    rcases List.mem_cons.mp hm with hm | hm
    · subst hm
      cases hl : lookupA s.layers m.chainID with
      | none => exact removeReleased_lookup_none hl
      | some old =>
        exact removeReleased_lookup_none (lookupA_eraseK_self_nodup hnd)
    · cases hl : lookupA s.layers m0.chainID with
      | none => exact ih hnd hm
      | some old =>
        refine ih ?_ hm
        rw [keysOf_eraseK]
        exact nodupEraseMy m0.chainID hnd

theorem removeReleasedA_lookup_none {released : List Metadata} :
    ∀ {s : ArchiveLRU} {c : ChainID}, lookupA s.layers c = none →
      lookupA (removeReleasedA released s).layers c = none := by
  induction released with
  | nil => intro s c h; exact h
  | cons m rest ih =>
    intro s c h
    rw [removeReleasedA, List.foldl_cons]
    cases hl : lookupA s.layers m.chainID with
    | none => exact ih h
    | some al => exact ih (lookupA_eraseK_none h)

theorem removeReleasedA_lookup_some {released : List Metadata} :
    ∀ {s : ArchiveLRU} {c : ChainID} {al : ArchiveLayer}, (keysOf s.layers).Nodup →
      lookupA (removeReleasedA released s).layers c = some al →
      lookupA s.layers c = some al := by
  induction released with
  | nil => intro s c al _ h; exact h
  | cons m rest ih =>
    intro s c al hnd h
    rw [removeReleasedA, List.foldl_cons] at h
    cases hl : lookupA s.layers m.chainID with
    | none =>
      rw [hl] at h
      exact ih hnd h
    | some old =>
      rw [hl] at h
      have hnd2 : (keysOf (eraseK s.layers m.chainID)).Nodup := by
        rw [keysOf_eraseK]
        exact nodupEraseMy m.chainID hnd
      exact lookupA_eraseK_some_nodup hnd (ih hnd2 h)

theorem removeReleasedA_drops_released {released : List Metadata} :
    ∀ {s : ArchiveLRU} {m : Metadata}, (keysOf s.layers).Nodup → m ∈ released →
      lookupA (removeReleasedA released s).layers m.chainID = none := by
  induction released with
  | nil => intro s m _ hm; exact absurd hm (List.not_mem_nil m)
  | cons m0 rest ih =>
    intro s m hnd hm
    rw [removeReleasedA, List.foldl_cons]
    rcases List.mem_cons.mp hm with hm | hm
    · subst hm
      cases hl : lookupA s.layers m.chainID with
      | none => exact removeReleasedA_lookup_none hl
      | some old =>
        exact removeReleasedA_lookup_none (lookupA_eraseK_self_nodup hnd)
    · cases hl : lookupA s.layers m0.chainID with
      | none => exact ih hnd hm
      | some old =>
        refine ih ?_ hm
        rw [keysOf_eraseK]
        exact nodupEraseMy m0.chainID hnd

/-- C8 counterexample: removing image "A", whose only chain's release
reports no layer freed, leaves the layer record in the index with "A"
still listed in its `images` — the image ID is not removed from the
record, and the record is not removed even though its image is gone. -/
theorem C8_removeImage_keeps_image_refs_cex :
    (layerRemoveImage exSvcRel8 "A" exLayer8).images = [] ∧
      lookupA (layerRemoveImage exSvcRel8 "A" exLayer8).layers ["d8"] = some exCl8 ∧
      exCl8.images = ["A"] :=
  ⟨by decide, by decide, by decide⟩

/-- C8 (amended): RemoveImage deletes the image from the images table
and walks its chains bottom-up through `removeLayer`; each
`removeLayer` whose release succeeds removes exactly the layers the
release reported as freed (records whose chains the release did not
report survive completely unchanged — in particular the image's ID is
not removed from their `images` lists). Stated for both the layer-LRU
and the archive-LRU engine. -/
theorem C8_removeImage_release_driven :
    (∀ (svc : Svc) (imgID : ImageID) (s : LayerLRU) (img : Image),
        lookupA s.images imgID = some img →
        layerRemoveImage svc imgID s =
          (chainIDsBottomUp img.diffIDs).foldl (fun acc c => layerRemoveLayer svc c acc)
            { s with images := eraseK s.images imgID }) ∧
    (∀ (svc : Svc) (chainID : ChainID) (s : LayerLRU) (cl : CacheLayer)
        (released : List Metadata),
        lookupA s.layers chainID = some cl → svc.releaseRO cl.layer = .ok released →
        layerRemoveLayer svc chainID s = removeReleased released s) ∧
    (∀ (released : List Metadata) (s : LayerLRU) (c : ChainID) (cl : CacheLayer),
        (keysOf s.layers).Nodup →
        lookupA (removeReleased released s).layers c = some cl →
        lookupA s.layers c = some cl) ∧
    (∀ (released : List Metadata) (s : LayerLRU) (m : Metadata),
        (keysOf s.layers).Nodup → m ∈ released →
        lookupA (removeReleased released s).layers m.chainID = none) ∧
    (∀ (svc : Svc) (imgID : ImageID) (s : ArchiveLRU) (img : Image),
        lookupA s.images imgID = some img →
        archiveRemoveImage svc imgID s =
          (chainIDsBottomUp img.diffIDs).foldl (fun acc c => archiveRemoveLayer svc c acc)
            { s with images := eraseK s.images imgID }) ∧
    (∀ (svc : Svc) (chainID : ChainID) (s : ArchiveLRU) (al : ArchiveLayer)
        (released : List Metadata),
        lookupA s.layers chainID = some al → svc.releaseRO al.layer = .ok released →
        archiveRemoveLayer svc chainID s = removeReleasedA released s) ∧
    (∀ (released : List Metadata) (s : ArchiveLRU) (c : ChainID) (al : ArchiveLayer),
        (keysOf s.layers).Nodup →
        lookupA (removeReleasedA released s).layers c = some al →
        lookupA s.layers c = some al) ∧
    (∀ (released : List Metadata) (s : ArchiveLRU) (m : Metadata),
        (keysOf s.layers).Nodup → m ∈ released →
        lookupA (removeReleasedA released s).layers m.chainID = none) := by
  refine ⟨?_, ?_, ?_, ?_, ?_, ?_, ?_, ?_⟩
  · intro svc imgID s img hlk
    unfold layerRemoveImage
    rw [hlk]
  · intro svc chainID s cl released hlk hrel
    unfold layerRemoveLayer
    rw [hlk]
    dsimp only
    rw [hrel]
  · intro released s c cl hnd h
    exact removeReleased_lookup_some hnd h
  · intro released s m hnd hm
    exact removeReleased_drops_released hnd hm
  · intro svc imgID s img hlk
    unfold archiveRemoveImage
    rw [hlk]
  · intro svc chainID s al released hlk hrel
    unfold archiveRemoveLayer
    rw [hlk]
    dsimp only
    rw [hrel]
  · intro released s c al hnd h
    exact removeReleasedA_lookup_some hnd h
  · intro released s m hnd hm
    exact removeReleasedA_drops_released hnd hm

/-- C8 witness: the layer-LRU conjuncts applied at the concrete
one-image cache whose release reports nothing freed. -/
theorem C8_removeImage_release_driven_witness :
    lookupA exLayer8.images "A" = some exImg8 ∧
      layerRemoveImage exSvcRel8 "A" exLayer8 =
        (chainIDsBottomUp exImg8.diffIDs).foldl
          (fun acc c => layerRemoveLayer exSvcRel8 c acc)
          { exLayer8 with images := eraseK exLayer8.images "A" } :=
  ⟨by decide,
    C8_removeImage_release_driven.1 exSvcRel8 "A" exLayer8 exImg8 (by decide)⟩

/-! Claims C1, C2 and C3: the error branches of the eviction loops. -/

theorem bumpCb_self (cb : ChainID → Nat) (c : ChainID) : bumpCb cb c c = cb c + 1 := by
  simp [bumpCb]

/-- One iteration of the layer-LRU eviction loop whose delete scan ends
in a conflict: the retry counter of the candidate's chain is bumped and
either the pass aborts (counter above 3) or the loop retries with the
state — in particular the eviction list — completely unchanged. -/
theorem layerEvictLoop_conflict_step {svc : Svc} {current : ImageID} {fuel : Nat}
    {cb : ChainID → Nat} {s : LayerLRU} {k : ChainID} {cl : CacheLayer}
    (hcap : s.capacity < s.level)
    (hlast : s.evictList.getLast? = some (k, cl))
    (hscan : (scanImages svc current cl.images).1 = .conflict) :
    layerEvictLoop svc current (fuel + 1) cb s =
      if 3 < cb cl.layer.chainID + 1 then (s, .aborted)
      else layerEvictLoop svc current fuel (bumpCb cb cl.layer.chainID) s := by
  rw [layerEvictLoop, if_pos hcap, hlast]
  dsimp only
  rw [hscan, bumpCb_self]

/-- The archive-LRU analogue of `layerEvictLoop_conflict_step`. -/
theorem archiveEvictLoop_conflict_step {svc : Svc} {fuel : Nat}
    {cb : ChainID → Nat} {s : ArchiveLRU} {k : ChainID} {al : ArchiveLayer}
    (hcap : s.capacity < s.level)
    (hlast : s.evictList.getLast? = some (k, al))
    (hscan : (scanImagesArchive svc al.images).1 = .conflict) :
    archiveEvictLoop svc (fuel + 1) cb s =
      if 3 < cb al.layer.chainID + 1 then (s, .aborted)
      else archiveEvictLoop svc fuel (bumpCb cb al.layer.chainID) s := by
  rw [archiveEvictLoop, if_pos hcap, hlast]
  dsimp only
  rw [hscan, bumpCb_self]

/-- C2 counterexample: with the back candidate's image delete reporting
a conflict on every try, the eviction pass aborts after the retries are
exhausted with the state completely unchanged: the candidate (chain
["dc"]) is still the back node and was never moved to the front. -/
theorem C2_conflict_no_moveToFront_cex :
    layerEvictLoop exSvcConflict "" 10 (fun _ => 0) exLayerConflict =
        (exLayerConflict, .aborted) ∧
      exLayerConflict.evictList.getLast?.map Prod.fst = some ["dc"] ∧
      (exLayerConflict.evictList.map Prod.fst).head? = some ["dx"] :=
  ⟨by decide, by decide, by decide⟩

/-- C2 (amended): on a conflict the flag is set and the loop breaks out
of the delete scan; the candidate's per-chain retry counter is bumped
and, when it exceeds 3 within the pass, eviction aborts; otherwise the
candidate is retried in place — the node stays at the back and is not
moved to the front.  Stated for both the layer-LRU and the archive-LRU
eviction loop. -/
theorem C2_conflict_retry_in_place :
    (∀ (svc : Svc) (current : ImageID) (fuel : Nat) (cb : ChainID → Nat) (s : LayerLRU)
        (k : ChainID) (cl : CacheLayer),
        s.capacity < s.level →
        s.evictList.getLast? = some (k, cl) →
        (scanImages svc current cl.images).1 = .conflict →
        (3 < cb cl.layer.chainID + 1 →
            layerEvictLoop svc current (fuel + 1) cb s = (s, .aborted)) ∧
        (¬ 3 < cb cl.layer.chainID + 1 →
            layerEvictLoop svc current (fuel + 1) cb s =
              layerEvictLoop svc current fuel (bumpCb cb cl.layer.chainID) s)) ∧
    (∀ (svc : Svc) (fuel : Nat) (cb : ChainID → Nat) (s : ArchiveLRU)
        (k : ChainID) (al : ArchiveLayer),
        s.capacity < s.level →
        s.evictList.getLast? = some (k, al) →
        (scanImagesArchive svc al.images).1 = .conflict →
        (3 < cb al.layer.chainID + 1 →
            archiveEvictLoop svc (fuel + 1) cb s = (s, .aborted)) ∧
        (¬ 3 < cb al.layer.chainID + 1 →
            archiveEvictLoop svc (fuel + 1) cb s =
              archiveEvictLoop svc fuel (bumpCb cb al.layer.chainID) s)) := by
  constructor
  · intro svc current fuel cb s k cl hcap hlast hscan
    constructor
    · intro h
      rw [layerEvictLoop_conflict_step hcap hlast hscan, if_pos h]
    · intro h
      rw [layerEvictLoop_conflict_step hcap hlast hscan, if_neg h]
  · intro svc fuel cb s k al hcap hlast hscan
    constructor
    · intro h
      rw [archiveEvictLoop_conflict_step hcap hlast hscan, if_pos h]
    · intro h
      rw [archiveEvictLoop_conflict_step hcap hlast hscan, if_neg h]

/-- C2 witness: one conflicted iteration at the concrete two-node
cache retries with the state unchanged. -/
theorem C2_conflict_retry_in_place_witness :
    exLayerConflict.capacity < exLayerConflict.level ∧
      exLayerConflict.evictList.getLast? = some (["dc"], exClc) ∧
      (scanImages exSvcConflict "" exClc.images).1 = .conflict ∧
      layerEvictLoop exSvcConflict "" 1 (fun _ => 0) exLayerConflict =
        layerEvictLoop exSvcConflict "" 0 (bumpCb (fun _ => 0) exClc.layer.chainID)
          exLayerConflict :=
  ⟨by decide, by decide, by decide,
    ((C2_conflict_retry_in_place.1 exSvcConflict "" 0 (fun _ => 0) exLayerConflict
        ["dc"] exClc (by decide) (by decide) (by decide)).2 (by decide))⟩

/-- The error-spin of the release loop never terminates on an
unclassified release error: the error is logged and left unchanged, so
the loop condition stays true for ever. -/
theorem releaseErrSpin_otherErr {svc : Svc} {c : ChainID} :
    ∀ n, releaseErrSpin svc c .otherErr n = .stuck := by
  intro n
  induction n with
  | zero => rfl
  | succ m ih =>
    rw [releaseErrSpin]
    · exact ih
    · simp

/-- One iteration of the layer-LRU eviction loop whose release fails
with an unclassified error: the release loop spins for ever (any fuel
is exhausted) and the state is unchanged — the pass does not abort. -/
theorem layerEvictLoop_relErr_step {svc : Svc} {current : ImageID} {fuel : Nat}
    {cb : ChainID → Nat} {s : LayerLRU} {k : ChainID} {cl : CacheLayer}
    (hcap : s.capacity < s.level)
    (hlast : s.evictList.getLast? = some (k, cl))
    (hscan : (scanImages svc current cl.images).1 = .ok)
    (hrel : svc.releaseRO cl.layer = .otherErr) :
    layerEvictLoop svc current (fuel + 1) cb s = (s, .fuelOut) := by
  rw [layerEvictLoop, if_pos hcap, hlast]
  dsimp only
  rw [hscan]
  have hloop : releaseLoop svc cl.layer.chainID cl.layer (fuel + 1) = .stuck := by
    rw [releaseLoop, hrel]
    exact releaseErrSpin_otherErr (fuel + 1)
  rw [hloop]

/-- One iteration whose release fails with "layer not retained": the
loop re-acquires a read-only handle; failure of the re-acquisition
aborts the pass; success leaves the release loop with the empty release
set of the failed call, so the candidate (with its handle updated) is
moved to the front and its retry counter bumped. -/
theorem layerEvictLoop_notRetained_step {svc : Svc} {current : ImageID} {fuel : Nat}
    {cb : ChainID → Nat} {s : LayerLRU} {k : ChainID} {cl : CacheLayer}
    (hcap : s.capacity < s.level)
    (hlast : s.evictList.getLast? = some (k, cl))
    (hscan : (scanImages svc current cl.images).1 = .ok)
    (hrel : svc.releaseRO cl.layer = .notRetained) :
    (svc.getROLayer cl.layer.chainID = none →
        layerEvictLoop svc current (fuel + 1) cb s = (s, .aborted)) ∧
    (∀ h2, svc.getROLayer cl.layer.chainID = some h2 →
        layerEvictLoop svc current (fuel + 1) cb s =
          (let s2 := { updateHandleK s cl.layer.chainID h2 with
            evictList := moveBackToFront (updateHandleK s cl.layer.chainID h2).evictList }
          if 3 < cb cl.layer.chainID + 1 then (s2, .aborted)
          else layerEvictLoop svc current fuel (bumpCb cb cl.layer.chainID) s2)) := by
  constructor
  · intro hget
    rw [layerEvictLoop, if_pos hcap, hlast]
    dsimp only
    rw [hscan]
    have hloop : releaseLoop svc cl.layer.chainID cl.layer (fuel + 1) = .abortPass := by
      rw [releaseLoop, hrel, releaseErrSpin, hget]
    rw [hloop]
  · intro h2 hget
    rw [layerEvictLoop, if_pos hcap, hlast]
    dsimp only
    rw [hscan]
    have hloop : releaseLoop svc cl.layer.chainID cl.layer (fuel + 1) = .okOut h2 [] := by
      rw [releaseLoop, hrel, releaseErrSpin, hget]
    rw [hloop]
    dsimp only
    rw [bumpCb_self, if_pos (show ([] : List Metadata).isEmpty = true from rfl)]

/-- C3 counterexample: with the single candidate's release failing with
an unclassified error, the eviction pass does not abort — the release
loop is still spinning on the same error when the fuel runs out, with
the cache state unchanged (the general no-abort fact for every fuel is
the first conjunct of the amended theorem). -/
theorem C3_release_error_never_aborts_cex :
    layerEvictLoop exSvcRelErr "" 5 (fun _ => 0) exLayerRelErr =
        (exLayerRelErr, .fuelOut) ∧
      ¬ (layerEvictLoop exSvcRelErr "" 5 (fun _ => 0) exLayerRelErr).2 = .aborted :=
  ⟨by decide, by decide⟩

/-- C3 (amended): during layer-LRU eviction, a release error that does
not say "layer not retained" is logged and the release loop retries
with the error unchanged, spinning for ever — the eviction pass does
not abort (and the cache state is unchanged while it spins).  If the
error does say "layer not retained", a read-only handle is re-acquired:
if that fails the pass aborts; if it succeeds the release is not
retried directly — the loop exits with the failed call's empty release
set, so the candidate is moved to the front with its handle updated and
its retry counter bumped. -/
theorem C3_release_error_behaviour :
    (∀ (svc : Svc) (current : ImageID) (fuel : Nat) (cb : ChainID → Nat) (s : LayerLRU)
        (k : ChainID) (cl : CacheLayer),
        s.capacity < s.level →
        s.evictList.getLast? = some (k, cl) →
        (scanImages svc current cl.images).1 = .ok →
        svc.releaseRO cl.layer = .otherErr →
        layerEvictLoop svc current (fuel + 1) cb s = (s, .fuelOut)) ∧
    (∀ (svc : Svc) (c : ChainID) (n : Nat), releaseErrSpin svc c .otherErr n = .stuck) ∧
    (∀ (svc : Svc) (current : ImageID) (fuel : Nat) (cb : ChainID → Nat) (s : LayerLRU)
        (k : ChainID) (cl : CacheLayer),
        s.capacity < s.level →
        s.evictList.getLast? = some (k, cl) →
        (scanImages svc current cl.images).1 = .ok →
        svc.releaseRO cl.layer = .notRetained →
        (svc.getROLayer cl.layer.chainID = none →
            layerEvictLoop svc current (fuel + 1) cb s = (s, .aborted)) ∧
        (∀ h2, svc.getROLayer cl.layer.chainID = some h2 →
            layerEvictLoop svc current (fuel + 1) cb s =
              (let s2 := { updateHandleK s cl.layer.chainID h2 with
                evictList :=
                  moveBackToFront (updateHandleK s cl.layer.chainID h2).evictList }
              if 3 < cb cl.layer.chainID + 1 then (s2, .aborted)
              else layerEvictLoop svc current fuel (bumpCb cb cl.layer.chainID) s2))) :=
  ⟨fun _ _ _ _ _ _ _ hcap hlast hscan hrel =>
      layerEvictLoop_relErr_step hcap hlast hscan hrel,
    fun _ _ n => releaseErrSpin_otherErr n,
    fun _ _ _ _ _ _ _ hcap hlast hscan hrel =>
      layerEvictLoop_notRetained_step hcap hlast hscan hrel⟩

/-- C3 witness: the unclassified-release-error conjunct applied at the
concrete single-candidate cache. -/
theorem C3_release_error_behaviour_witness :
    exLayerRelErr.capacity < exLayerRelErr.level ∧
      exSvcRelErr.releaseRO exClz.layer = .otherErr ∧
      layerEvictLoop exSvcRelErr "" 4 (fun _ => 0) exLayerRelErr =
        (exLayerRelErr, .fuelOut) :=
  ⟨by decide, by decide,
    C3_release_error_behaviour.1 exSvcRelErr "" 3 (fun _ => 0) exLayerRelErr
      ["dz"] exClz (by decide) (by decide) (by decide) (by decide)⟩

/-- C1 (code bug): image-LRU eviction with the back candidate's
`ImageDelete` failing with "no such image" never removes the candidate:
for every fuel the loop is still running with the map, the list and the
level unchanged — the code merely continues with the same back node,
instead of treating the error as success and removing the entry. -/
theorem C1_image_evict_noSuchImage_keeps_candidate :
    ∀ fuel, imageEvictLoop exSvcNoSuch fuel exImageLRU1 = (exImageLRU1, .fuelOut) := by
  intro fuel
  induction fuel with
  | zero => rfl
  | succ n ih => exact ih

/-! Claim C10: unconditional appends in updateLayer, one ImageDelete
per occurrence in the eviction scan. -/

theorem chainIDsTopDown_single (d : DiffID) : chainIDsTopDown [d] = [[d]] := rfl

theorem layerUpdateLayer_resident {svc : Svc} {fuel : Nat} {chainID : ChainID} {img : Image}
    {s : LayerLRU} {cl : CacheLayer}
    (hlk : lookupA s.layers chainID = some cl) (hle : ¬ s.capacity < s.level) :
    layerUpdateLayer svc fuel chainID img s =
      { s with
        layers := insertA s.layers chainID { cl with images := cl.images ++ [img.id] }
        evictList := moveToFrontK
          (updateValK s.evictList chainID { cl with images := cl.images ++ [img.id] })
          chainID } := by
  unfold layerUpdateLayer
  rw [hlk]
  dsimp only
  exact layerEvict_state_of_le fuel hle

theorem archiveUpdateLayer_resident {svc : Svc} {fuel : Nat} {chainID : ChainID}
    {img : Image} {s : ArchiveLRU} {al : ArchiveLayer}
    (hlk : lookupA s.layers chainID = some al) (hle : ¬ s.capacity < s.level) :
    archiveUpdateLayer svc fuel chainID img s =
      { s with
        layers := insertA s.layers chainID { al with images := al.images ++ [img.id] }
        evictList := moveToFrontK
          (updateValK s.evictList chainID { al with images := al.images ++ [img.id] })
          chainID } := by
  unfold archiveUpdateLayer
  rw [hlk]
  dsimp only
  exact archiveEvict_state_of_le fuel hle

theorem layerUpdateImage_single {svc : Svc} {fuel : Nat} {refOrID : String} {img : Image}
    {d : DiffID} (hgi : svc.getImage refOrID = some img) (hd : img.diffIDs = [d])
    (s : LayerLRU) :
    layerUpdateImage svc fuel refOrID s = layerUpdateLayer svc fuel [d] img s := by
  unfold layerUpdateImage
  rw [hgi]
  dsimp only
  rw [hd, chainIDsTopDown_single, List.foldl_cons, List.foldl_nil]

theorem layerUpdateImage_iterate {svc : Svc} {fuel : Nat} {refOrID : String} {img : Image}
    {d : DiffID} {s : LayerLRU} {cl : CacheLayer}
    (hgi : svc.getImage refOrID = some img) (hd : img.diffIDs = [d])
    (hlk : lookupA s.layers [d] = some cl) (hle : ¬ s.capacity < s.level) :
    ∀ n,
      lookupA ((layerUpdateImage svc fuel refOrID)^[n] s).layers [d] =
          some { cl with images := cl.images ++ List.replicate n img.id } ∧
        ((layerUpdateImage svc fuel refOrID)^[n] s).level = s.level ∧
        ((layerUpdateImage svc fuel refOrID)^[n] s).capacity = s.capacity := by
  intro n
  induction n with
  | zero =>
    refine ⟨?_, rfl, rfl⟩
    simp only [Function.iterate_zero, id_eq, List.replicate_zero, List.append_nil]
    exact hlk
  | succ m ih =>
    obtain ⟨ihl, ihlev, ihcap⟩ := ih
    rw [Function.iterate_succ_apply']
    rw [layerUpdateImage_single hgi hd]
    have hle2 : ¬ ((layerUpdateImage svc fuel refOrID)^[m] s).capacity <
        ((layerUpdateImage svc fuel refOrID)^[m] s).level := by
      rw [ihlev, ihcap]
      exact hle
    rw [layerUpdateLayer_resident ihl hle2]
    refine ⟨?_, ihlev, ihcap⟩
    rw [lookupA_insertA_self]
    have harr : (cl.images ++ List.replicate m img.id) ++ [img.id] =
        cl.images ++ List.replicate (m + 1) img.id := by
      rw [List.append_assoc, List.replicate_succ']
    rw [harr]

theorem scanImages_all_ok {svc : Svc} {current : ImageID} :
    ∀ {imgs : List ImageID},
      (∀ i ∈ imgs, i ≠ current ∧
        (svc.imageDelete i = .ok ∨ svc.imageDelete i = .noSuchImage)) →
      scanImages svc current imgs = (.ok, imgs) := by
  intro imgs
  induction imgs with
  | nil => intro _; rfl
  | cons i rest ih =>
    intro h
    obtain ⟨hne, hdel⟩ := h i (List.mem_cons_self i rest)
    rw [scanImages, if_neg hne]
    have hrest := ih (fun j hj => h j (List.mem_cons_of_mem i hj))
    rcases hdel with hdel | hdel
    · rw [hdel]
      dsimp only
      rw [hrest]
    · rw [hdel]
      dsimp only
      rw [hrest]

theorem scanImagesArchive_all_ok {svc : Svc} :
    ∀ {imgs : List ImageID},
      (∀ i ∈ imgs, svc.imageDelete i = .ok ∨ svc.imageDelete i = .noSuchImage) →
      scanImagesArchive svc imgs = (.ok, imgs) := by
  intro imgs
  induction imgs with
  | nil => intro _; rfl
  | cons i rest ih =>
    intro h
    have hdel := h i (List.mem_cons_self i rest)
    rw [scanImagesArchive]
    have hrest := ih (fun j hj => h j (List.mem_cons_of_mem i hj))
    rcases hdel with hdel | hdel
    · rw [hdel]
      dsimp only
      rw [hrest]
    · rw [hdel]
      dsimp only
      rw [hrest]

/-- C10: `updateLayer` appends the image's ID to a resident layer
record's `images` list unconditionally, with no duplicate check (both
engines); n UpdateImage calls for the same resident single-layer image
leave the record with its original list extended by n copies of the ID
(n+1 occurrences when it started with one); and the eviction delete
scan issues one `ImageDelete` call per occurrence when no occurrence is
protected or conflicted. -/
theorem C10_updateLayer_appends_unconditionally :
    (∀ (svc : Svc) (fuel : Nat) (chainID : ChainID) (img : Image) (s : LayerLRU)
        (cl : CacheLayer),
        lookupA s.layers chainID = some cl → ¬ s.capacity < s.level →
        lookupA (layerUpdateLayer svc fuel chainID img s).layers chainID =
          some { cl with images := cl.images ++ [img.id] }) ∧
    (∀ (svc : Svc) (fuel : Nat) (chainID : ChainID) (img : Image) (s : ArchiveLRU)
        (al : ArchiveLayer),
        lookupA s.layers chainID = some al → ¬ s.capacity < s.level →
        lookupA (archiveUpdateLayer svc fuel chainID img s).layers chainID =
          some { al with images := al.images ++ [img.id] }) ∧
    (∀ (svc : Svc) (fuel : Nat) (refOrID : String) (img : Image) (d : DiffID)
        (s : LayerLRU) (cl : CacheLayer) (n : Nat),
        svc.getImage refOrID = some img → img.diffIDs = [d] →
        lookupA s.layers [d] = some cl → ¬ s.capacity < s.level →
        lookupA ((layerUpdateImage svc fuel refOrID)^[n] s).layers [d] =
            some { cl with images := cl.images ++ List.replicate n img.id } ∧
          (cl.images ++ List.replicate n img.id).count img.id =
            cl.images.count img.id + n) ∧
    (∀ (svc : Svc) (current : ImageID) (imgs : List ImageID),
        (∀ i ∈ imgs, i ≠ current ∧
          (svc.imageDelete i = .ok ∨ svc.imageDelete i = .noSuchImage)) →
        scanImages svc current imgs = (.ok, imgs)) ∧
    (∀ (svc : Svc) (imgs : List ImageID),
        (∀ i ∈ imgs, svc.imageDelete i = .ok ∨ svc.imageDelete i = .noSuchImage) →
        scanImagesArchive svc imgs = (.ok, imgs)) := by
  refine ⟨?_, ?_, ?_, ?_, ?_⟩
  · intro svc fuel chainID img s cl hlk hle
    rw [layerUpdateLayer_resident hlk hle]
    exact lookupA_insertA_self _ _ _
  · intro svc fuel chainID img s al hlk hle
    rw [archiveUpdateLayer_resident hlk hle]
    exact lookupA_insertA_self _ _ _
  · intro svc fuel refOrID img d s cl n hgi hd hlk hle
    refine ⟨(layerUpdateImage_iterate hgi hd hlk hle n).1, ?_⟩
    simp [List.count_append, List.count_replicate]
  · intro svc current imgs h
    exact scanImages_all_ok h
  · intro svc imgs h
    exact scanImagesArchive_all_ok h

/-! Claim C9: repeated PutImage. -/

theorem checkImageSize_some {svc : Svc} {cap : Int} {img : Image}
    (h : checkImageSize svc cap img = true) :
    ∃ n, getImageSize svc img = some n ∧ n ≤ cap := by
  unfold checkImageSize at h
  cases hgs : getImageSize svc img with
  | none => rw [hgs] at h; exact Bool.noConfusion h
  | some n =>
    rw [hgs] at h
    exact ⟨n, rfl, of_decide_eq_true h⟩

theorem naiveDrainFold_capacity (current : ImageID) :
    ∀ (entries : List (ImageID × Int)) (acc : NaiveC),
      (entries.foldl
        (fun acc p =>
          if p.1 = current then acc
          else { acc with images := eraseK acc.images p.1, level := acc.level - p.2 })
        acc).capacity = acc.capacity := by
  intro entries
  induction entries with
  | nil => intro acc; rfl
  | cons p rest ih =>
    intro acc
    rw [List.foldl_cons]
    by_cases hp : p.1 = current
    · rw [if_pos hp]
      exact ih acc
    · rw [if_neg hp]
      exact ih _

theorem naiveDrainFold_lookup (current : ImageID) (v : Int) :
    ∀ (entries : List (ImageID × Int)) (acc : NaiveC),
      lookupA acc.images current = some v →
      lookupA
        (entries.foldl
          (fun acc p =>
            if p.1 = current then acc
            else { acc with images := eraseK acc.images p.1, level := acc.level - p.2 })
          acc).images current = some v := by
  intro entries
  induction entries with
  | nil => intro acc h; exact h
  | cons p rest ih =>
    intro acc h
    rw [List.foldl_cons]
    by_cases hp : p.1 = current
    · rw [if_pos hp]
      exact ih acc h
    · rw [if_neg hp]
      refine ih _ ?_
      show lookupA (eraseK acc.images p.1) current = some v
      rw [lookupA_eraseK_ne (fun he => hp he.symm)]
      exact h

theorem naiveEvict_capacity (current : ImageID) (s : NaiveC) :
    (naiveEvict current s).capacity = s.capacity := by
  unfold naiveEvict
  by_cases hc : s.capacity < s.level
  · rw [if_pos hc]
    exact naiveDrainFold_capacity current s.images s
  · rw [if_neg hc]

theorem naiveEvict_lookup_current {current : ImageID} {v : Int} {s : NaiveC}
    (h : lookupA s.images current = some v) :
    lookupA (naiveEvict current s).images current = some v := by
  unfold naiveEvict
  by_cases hc : s.capacity < s.level
  · rw [if_pos hc]
    exact naiveDrainFold_lookup current v s.images s h
  · rw [if_neg hc]
    exact h

theorem naivePutImage_idem (svc : Svc) (img? : Option Image) (s : NaiveC) :
    naivePutImage svc img? (naivePutImage svc img? s) = naivePutImage svc img? s := by
  cases img? with
  | none => rfl
  | some img =>
    by_cases hchk : checkImageSize svc s.capacity img = true
    · cases hlk : lookupA s.images img.id with
      | some v =>
        have h1 : naivePutImage svc (some img) s = s := by
          unfold naivePutImage
          dsimp only
          rw [if_pos hchk, hlk]
        rw [h1]
        exact h1
      | none =>
        cases hgs : getImageSize svc img with
        | none =>
          exfalso
          obtain ⟨n, hn, _⟩ := checkImageSize_some hchk
          rw [hgs] at hn
          exact Option.noConfusion hn
        | some size =>
          have h1 : naivePutImage svc (some img) s =
              naiveEvict img.id
                { s with images := insertA s.images img.id size
                         level := s.level + size } := by
            unfold naivePutImage
            dsimp only
            rw [if_pos hchk, hlk, hgs]
          rw [h1]
          have hcap := naiveEvict_capacity img.id
            { s with images := insertA s.images img.id size, level := s.level + size }
          have hpres := @naiveEvict_lookup_current img.id size
            { s with images := insertA s.images img.id size
                     level := s.level + size }
            (lookupA_insertA_self _ _ _)
          unfold naivePutImage
          dsimp only
          rw [hcap]
          rw [if_pos hchk, hpres]
    · have h1 : naivePutImage svc (some img) s = s := by
        unfold naivePutImage
        dsimp only
        rw [if_neg hchk]
      rw [h1]
      exact h1

theorem levelSumI_cons (svc : Svc) (p : ImageID × Image) (t : List (ImageID × Image)) :
    levelSumI svc (p :: t) = (getImageSize svc p.2).getD 0 + levelSumI svc t := by
  simp [levelSumI]

theorem levelSumI_dropLast {svc : Svc} {l : List (ImageID × Image)} {e : ImageID × Image}
    (h : l.getLast? = some e) :
    levelSumI svc l = levelSumI svc l.dropLast + (getImageSize svc e.2).getD 0 := by
  have h2 := eq_dropLast_append h
  conv_lhs => rw [h2]
  simp [levelSumI, List.map_append, List.sum_append]

theorem moveToFrontK_of_head {κ ν : Type} [DecidableEq κ] {l : List (κ × ν)} {p : κ × ν}
    {k : κ} (h : l.head? = some p) (hk : p.1 = k) : moveToFrontK l k = l := by
  cases l with
  | nil => exact absurd h (by simp)
  | cons a t =>
    have ha : a = p := by simpa using h
    subst ha
    rw [moveToFrontK, List.find?_cons_of_pos _ (by simp [hk]), eraseK_cons, if_pos hk]

theorem moveToFrontK_idem {κ ν : Type} [DecidableEq κ] (l : List (κ × ν)) (k : κ) :
    moveToFrontK (moveToFrontK l k) k = moveToFrontK l k := by
  cases hf : l.find? (fun p => decide (p.1 = k)) with
  | none =>
    have h1 : moveToFrontK l k = l := by rw [moveToFrontK, hf]
    rw [h1]
    exact h1
  | some e =>
    have he2 := List.find?_some hf
    have he : e.1 = k := by simpa using he2
    have h1 : moveToFrontK l k = e :: eraseK l k := by rw [moveToFrontK, hf]
    rw [h1]
    exact moveToFrontK_of_head rfl he

theorem getLast?_some_of_ne_nil {α : Type} : ∀ {l : List α}, l ≠ [] →
    ∃ e, l.getLast? = some e := by
  intro l
  induction l with
  | nil => intro h; exact absurd rfl h
  | cons a t ih =>
    intro _
    cases t with
    | nil => exact ⟨a, rfl⟩
    | cons b t2 =>
      obtain ⟨e, he⟩ := ih (by simp)
      refine ⟨e, ?_⟩
      rw [List.getLast?_cons_cons]
      exact he

/-- Invariant of the image-LRU eviction loop: the freshly admitted
image stays at the front of the list and mapped, because the loop only
ever removes the back node, and with consistent level accounting the
loop stops before the sole remaining node (the new image, whose size
passed the capacity check) would become the back candidate. -/
theorem imageEvictLoop_front {svc : Svc} {A : Image} {szA : Int}
    (hszA : getImageSize svc A = some szA) :
    ∀ (fuel : Nat) {s : ImageLRU},
      s.evictList.head? = some (A.id, A) →
      (lookupA s.images A.id).isSome = true →
      s.level = levelSumI svc s.evictList →
      (∀ p ∈ s.evictList, (getImageSize svc p.2).isSome) →
      (∀ p ∈ s.evictList, p.1 = p.2.id) →
      (keysOf s.evictList).Nodup →
      szA ≤ s.capacity →
      (imageEvictLoop svc fuel s).1.evictList.head? = some (A.id, A) ∧
        (lookupA (imageEvictLoop svc fuel s).1.images A.id).isSome = true ∧
        (imageEvictLoop svc fuel s).1.capacity = s.capacity := by
  intro fuel
  induction fuel with
  | zero => intro s h1 h2 h3 h4 h5 h6 h7; exact ⟨h1, h2, rfl⟩
  | succ n ih =>
    intro s h1 h2 h3 h4 h5 h6 h7
    rw [imageEvictLoop]
    by_cases hc : s.capacity < s.level
    · rw [if_pos hc]
      obtain ⟨a, t, hlist⟩ : ∃ a t, s.evictList = a :: t := by
        cases hli : s.evictList with
        | nil => rw [hli] at h1; exact absurd h1 (by simp)
        | cons a t => exact ⟨a, t, rfl⟩
      have ha : a = (A.id, A) := by rw [hlist] at h1; simpa using h1
      cases t with
      | nil =>
        exfalso
        have hlev : s.level = szA := by
          rw [h3, hlist, ha, levelSumI_cons]
          simp [levelSumI, hszA]
        rw [hlev] at hc
        exact absurd hc (not_lt.mpr h7)
      | cons b t2 =>
        obtain ⟨e, hlast⟩ : ∃ e, s.evictList.getLast? = some e := by
          apply getLast?_some_of_ne_nil
          rw [hlist]
          simp
        obtain ⟨ke, ve⟩ := e
        rw [hlast]
        dsimp only
        have hmem : (ke, ve) ∈ s.evictList := getLast?_mem_my hlast
        have hco : ke = ve.id := h5 _ hmem
        have hmem2 : (ke, ve) ∈ b :: t2 := by
          apply getLast?_mem_my
          rw [hlist, List.getLast?_cons_cons] at hlast
          exact hlast
        have hkeA : ke ≠ A.id := by
          intro hkk
          have hnd2 : A.id ∉ keysOf (b :: t2) := by
            rw [hlist, ha] at h6
            exact (List.nodup_cons.mp h6).1
          exact hnd2 (hkk ▸ List.mem_map_of_mem Prod.fst hmem2)
        obtain ⟨sze, hsve⟩ := Option.isSome_iff_exists.mp (h4 _ hmem)
        rw [hsve]
        dsimp only
        cases hdel : svc.imageDelete ve.id with
        | conflictErr => exact ih h1 h2 h3 h4 h5 h6 h7
        | noSuchImage => exact ih h1 h2 h3 h4 h5 h6 h7
        | otherErr => exact ⟨h1, h2, rfl⟩
        | ok =>
          have hdrop : s.evictList.dropLast = a :: (b :: t2).dropLast := by
            rw [hlist]
            rfl
          have hsum2 : s.level - sze = levelSumI svc s.evictList.dropLast := by
            rw [h3, levelSumI_dropLast hlast, hsve]
            simp
          refine ih ?_ ?_ ?_ ?_ ?_ ?_ h7
          · show (s.evictList.dropLast).head? = some (A.id, A)
            rw [hdrop, ha]
            rfl
          · show (lookupA (eraseK s.images ve.id) A.id).isSome = true
            rw [lookupA_eraseK_ne (fun hx => hkeA (hco ▸ hx.symm))]
            exact h2
          · exact hsum2
          · intro p hp
            exact h4 p ((List.dropLast_sublist s.evictList).subset hp)
          · intro p hp
            exact h5 p ((List.dropLast_sublist s.evictList).subset hp)
          · show (keysOf s.evictList.dropLast).Nodup
            rw [← keysOf_dropLast_getLast hlast h6]
            exact nodupEraseMy ke h6
    · rw [if_neg hc]
      exact ⟨h1, h2, rfl⟩

theorem imagePutImage_idem {svc : Svc} (fuel1 fuel2 : Nat) (img? : Option Image)
    {s : ImageLRU} (hinv : ImageInv s)
    (hsum : s.level = levelSumI svc s.evictList)
    (hsizes : ∀ p ∈ s.evictList, (getImageSize svc p.2).isSome) :
    imagePutImage svc fuel2 img? (imagePutImage svc fuel1 img? s) =
      imagePutImage svc fuel1 img? s := by
  cases img? with
  | none => rfl
  | some img =>
    by_cases hchk : checkImageSize svc s.capacity img = true
    · cases hlk : lookupA s.images img.id with
      | some w =>
        have h1 : imagePutImage svc fuel1 (some img) s =
            { s with evictList := moveToFrontK s.evictList img.id } := by
          unfold imagePutImage
          dsimp only
          rw [if_pos hchk, hlk]
        have h2 : imagePutImage svc fuel2 (some img)
            { s with evictList := moveToFrontK s.evictList img.id } =
            { s with evictList := moveToFrontK (moveToFrontK s.evictList img.id) img.id } := by
          unfold imagePutImage
          dsimp only
          rw [if_pos hchk, hlk]
        rw [h1, h2, moveToFrontK_idem]
      | none =>
        obtain ⟨size, hgs, hle⟩ := checkImageSize_some hchk
        have h1 : imagePutImage svc fuel1 (some img) s =
            (imageEvictLoop svc fuel1
              { s with images := insertA s.images img.id img
                       evictList := (img.id, img) :: s.evictList
                       level := s.level + size }).1 := by
          unfold imagePutImage
          dsimp only
          rw [if_pos hchk, hlk, hgs]
          unfold imageEvict
          dsimp only
          simp only [List.isEmpty_cons, Bool.false_eq_true, if_false]
        have hfr := imageEvictLoop_front hgs fuel1
          (s := { s with images := insertA s.images img.id img
                         evictList := (img.id, img) :: s.evictList
                         level := s.level + size })
          rfl
          (by
            show (lookupA (insertA s.images img.id img) img.id).isSome = true
            rw [lookupA_insertA_self]
            rfl)
          (by
            show s.level + size = levelSumI svc ((img.id, img) :: s.evictList)
            rw [levelSumI_cons]
            dsimp only
            rw [hgs, hsum]
            simp [Int.add_comm])
          (by
            intro p hp
            rcases List.mem_cons.mp hp with hp | hp
            · rw [hp]
              dsimp only
              rw [hgs]
              rfl
            · exact hsizes p hp)
          (by
            intro p hp
            rcases List.mem_cons.mp hp with hp | hp
            · rw [hp]
            · exact hinv.2.2 p hp)
          (by
            show (keysOf ((img.id, img) :: s.evictList)).Nodup
            rw [keysOf_cons]
            refine List.nodup_cons.mpr ⟨?_, (hinv.1.nodup_iff).mp hinv.2.1⟩
            intro hx
            exact (lookupA_none_iff.mp hlk) (hinv.1.mem_iff.mpr hx))
          hle
        obtain ⟨hh, hs, hcap⟩ := hfr
        obtain ⟨w, hw⟩ := Option.isSome_iff_exists.mp hs
        have h2 : imagePutImage svc fuel2 (some img)
            (imageEvictLoop svc fuel1
              { s with images := insertA s.images img.id img
                       evictList := (img.id, img) :: s.evictList
                       level := s.level + size }).1 =
            (imageEvictLoop svc fuel1
              { s with images := insertA s.images img.id img
                       evictList := (img.id, img) :: s.evictList
                       level := s.level + size }).1 := by
          have hchk2 : checkImageSize svc
              (imageEvictLoop svc fuel1
                { s with images := insertA s.images img.id img
                         evictList := (img.id, img) :: s.evictList
                         level := s.level + size }).1.capacity img = true := by
            rw [hcap]
            exact hchk
          unfold imagePutImage
          dsimp only
          rw [if_pos hchk2, hw]
          dsimp only
          rw [moveToFrontK_of_head hh rfl]
        rw [h1]
        exact h2
    · have h1 : imagePutImage svc fuel1 (some img) s = s := by
        unfold imagePutImage
        dsimp only
        rw [if_neg hchk]
      have h2 : imagePutImage svc fuel2 (some img) s = s := by
        unfold imagePutImage
        dsimp only
        rw [if_neg hchk]
      rw [h1, h2]

/-- C9 counterexample: for layer-LRU, the second PutImage of the same
image is not a no-op — starting from a well-formed state, the first
call leaves the eviction list ordered [dx, dA, dc] (an empty-release
candidate was moved to the front during eviction), while the second
call leaves [dA, dx, dc]; the states differ (the level, 13, happens to
be unchanged). -/
theorem C9_layer_putImage_not_idempotent_cex :
    ((keysOf exLayer9.layers).Perm (keysOf exLayer9.evictList) ∧
      (keysOf exLayer9.layers).Nodup) ∧
    keysOf (layerPutImage exSvc9 10 (some exImg9) exLayer9).evictList =
      [["dx"], ["dA"], ["dc"]] ∧
    keysOf (layerPutImage exSvc9 10 (some exImg9)
        (layerPutImage exSvc9 10 (some exImg9) exLayer9)).evictList =
      [["dA"], ["dx"], ["dc"]] ∧
    ¬ layerPutImage exSvc9 10 (some exImg9)
          (layerPutImage exSvc9 10 (some exImg9) exLayer9) =
        layerPutImage exSvc9 10 (some exImg9) exLayer9 ∧
    (layerPutImage exSvc9 10 (some exImg9)
        (layerPutImage exSvc9 10 (some exImg9) exLayer9)).level =
      (layerPutImage exSvc9 10 (some exImg9) exLayer9).level :=
  ⟨⟨by decide, by decide⟩, by decide, by decide, by decide, by decide⟩

/-- C9 (amended): for the naive and the image-LRU policies, calling
PutImage twice with the same image leaves the state after the second
call equal to the state after the first (for image-LRU under consistent
accounting: map/list agreement, level equal to the sum of the listed
sizes, and defined size probes); in particular the level is not
increased a second time.  For layer-LRU (and archive-LRU, which shares
its structure) the second call may reorder the eviction list, so state
equality fails — see the counterexample. -/
theorem C9_putImage_idempotent_naive_imageLRU :
    (∀ (svc : Svc) (img? : Option Image) (s : NaiveC),
        naivePutImage svc img? (naivePutImage svc img? s) = naivePutImage svc img? s) ∧
    (∀ (svc : Svc) (fuel1 fuel2 : Nat) (img? : Option Image) (s : ImageLRU),
        ImageInv s →
        s.level = levelSumI svc s.evictList →
        (∀ p ∈ s.evictList, (getImageSize svc p.2).isSome) →
        imagePutImage svc fuel2 img? (imagePutImage svc fuel1 img? s) =
          imagePutImage svc fuel1 img? s) :=
  ⟨fun svc img? s => naivePutImage_idem svc img? s,
    fun _ fuel1 fuel2 img? _ hinv hsum hsizes =>
      imagePutImage_idem fuel1 fuel2 img? hinv hsum hsizes⟩

/-- C9 witness: the image-LRU conjunct applied at the empty cache with
the clean service; the two probes and hypotheses hold by computation. -/
theorem C9_putImage_idempotent_naive_imageLRU_witness :
    (ImageInv exImageLRU0 ∧ exImageLRU0.level = levelSumI exSvcClean exImageLRU0.evictList) ∧
      imagePutImage exSvcClean 3 (some exImg8) (imagePutImage exSvcClean 3 (some exImg8)
          exImageLRU0) =
        imagePutImage exSvcClean 3 (some exImg8) exImageLRU0 :=
  ⟨⟨⟨by decide, by decide, by decide⟩, by decide⟩,
    C9_putImage_idempotent_naive_imageLRU.2 exSvcClean 3 3 (some exImg8) exImageLRU0
      ⟨by decide, by decide, by decide⟩ (by decide) (by decide)⟩

/-- C10 witness: three updates of the resident image "A" leave its
chain's record with four occurrences of "A", and the scan then issues
one delete per occurrence. -/
theorem C10_updateLayer_appends_unconditionally_witness :
    exSvcUpd.getImage "R8" = some exImg8 ∧
      lookupA exLayer8.layers ["d8"] = some exCl8 ∧
      lookupA ((layerUpdateImage exSvcUpd 1 "R8")^[3] exLayer8).layers ["d8"] =
        some { exCl8 with images := exCl8.images ++ List.replicate 3 "A" } ∧
      scanImages exSvcUpd "" (exCl8.images ++ List.replicate 3 "A") =
        (.ok, exCl8.images ++ List.replicate 3 "A") :=
  ⟨by decide, by decide,
    ((C10_updateLayer_appends_unconditionally.2.2.1 exSvcUpd 1 "R8" exImg8 "d8"
        exLayer8 exCl8 3 (by decide) (by decide) (by decide) (by decide)).1),
    (C10_updateLayer_appends_unconditionally.2.2.2.1 exSvcUpd ""
      (exCl8.images ++ List.replicate 3 "A") (by decide))⟩

end Marina